import Mathlib

/-!
Verification development for the filecrypter streaming encryption core
(src-tauri/src/crypto/streaming.rs, crypto/kdf.rs, crypto/keyfile.rs,
crypto/compression.rs, commands/archive.rs).

Shallow embedding conventions:

* Bytes on disk are modelled as `List Nat` (each element morally `< 256`) for
  plaintext and header material, and as `List CByte` for encrypted containers,
  where `CByte` has, besides plain bytes, symbolic elements standing for an
  AES-GCM authentication-tag block and a ZSTD frame.  The external
  cryptographic primitives (AES-256-GCM, BLAKE3, ZSTD, Argon2id) are external
  crates, not repository code; they are modelled ideally: collision-free
  (injective by construction) and perfectly invertible, which is the standard
  symbolic model for such primitives.  All repository-side logic (parsing,
  validation, chunking, error mapping, atomic-output handling) is translated
  from the source.
* Randomness (salt, base nonce) and the wall clock are passed as explicit
  parameters.
* File-system effects are modelled by an explicit two-cell state `FS`
  (the requested output path and the operation-private temp file), the only
  paths either streaming operation writes.
-/

/-- Error type translated from src-tauri/src/error.rs (the constructors the
embedded operations can produce). -/
inductive CryptoError where
  | invalidPassword
  | formatError (msg : String)
  | encryptionFailed
  | io (msg : String)
  | invalidPath (msg : String)
  | archiveError (msg : String)
  | pathTraversal (msg : String)
  | keyFileRequired
  | keyFileError (msg : String)
deriving DecidableEq, Repr

/-- Little-endian 4-byte encoding of a natural number, as produced by
u32 to-le-bytes in the source (wrapping, hence the mod 256 digits). -/
def u32le (n : Nat) : List Nat :=
  [n % 256, n / 256 % 256, n / 65536 % 256, n / 16777216 % 256]

/-- Little-endian 8-byte encoding of a natural number, as produced by
u64 to-le-bytes in the source. -/
def u64le (n : Nat) : List Nat :=
  [n % 256, n / 256 % 256, n / 65536 % 256, n / 16777216 % 256,
   n / 4294967296 % 256, n / 1099511627776 % 256,
   n / 281474976710656 % 256, n / 72057594037927936 % 256]

/-- Little-endian value of a byte list (u32 or u64 from-le-bytes in the
source). -/
def leVal : List Nat → Nat
  | [] => 0
  | b :: t => b + 256 * leVal t

/-- Injective numeric encoding of a byte list (all elements below 256), used
to build the ideal (collision-free) model of the external BLAKE3 hash. -/
def encB : List Nat → Nat
  | [] => 0
  | b :: t => (b + 1) + 257 * encB t

/-- Ideal model of the external blake3 crate hash: a 32-element digest whose
first element is an injective encoding of the whole input.  Only the
properties the repository relies on are kept: determinism and
collision-freeness. -/
def blake3Hash (xs : List Nat) : List Nat :=
  encB xs :: List.replicate 31 0

/-- Model of blake3 Hasher: accumulates updated bytes. -/
structure B3Hasher where
  acc : List Nat
deriving DecidableEq

/-- Model of blake3 Hasher new. -/
def B3Hasher.new : B3Hasher := ⟨[]⟩

/-- Model of blake3 Hasher update: appends the input bytes. -/
def B3Hasher.update (h : B3Hasher) (xs : List Nat) : B3Hasher := ⟨h.acc ++ xs⟩

/-- Model of blake3 Hasher finalize. -/
def B3Hasher.finalize (h : B3Hasher) : List Nat := blake3Hash h.acc

/-- ASCII bytes of the domain-separation tag used by the chunk-nonce KDF in
streaming.rs. -/
def chunkNonceDomain : List Nat :=
  [102, 105, 108, 101, 99, 114, 121, 112, 116, 101, 114, 45,
   99, 104, 117, 110, 107, 45, 110, 111, 110, 99, 101, 45, 118, 49]

/-- Translation of derive-chunk-nonce from streaming.rs: BLAKE3 over the
domain tag, the base nonce and the little-endian chunk index, truncated to
the 12-byte nonce size. -/
def derive_chunk_nonce (baseNonce : List Nat) (chunkIndex : Nat) : List Nat :=
  let h := ((B3Hasher.new.update chunkNonceDomain).update baseNonce).update
    (u64le chunkIndex)
  h.finalize.take 12

/-- KDF parameters translated from crypto/kdf.rs (algorithm is the wire
value, 1 = Argon2id). -/
structure KdfParamsV where
  algorithm : Nat
  memoryCostKib : Nat
  timeCost : Nat
  parallelism : Nat
  keyLength : Nat
  saltLength : Nat
deriving DecidableEq, Repr

/-- Default KDF parameters from crypto/kdf.rs. -/
def defaultKdfParams : KdfParamsV :=
  ⟨1, 65536, 3, 4, 32, 16⟩

/-- Translation of KdfParams validate from crypto/kdf.rs. -/
def KdfParamsV.validate (p : KdfParamsV) : Except CryptoError Unit :=
  if p.memoryCostKib < 8192 ∨ p.memoryCostKib > 262144 then
    .error (.formatError "Invalid KDF memory cost")
  else if p.timeCost < 1 ∨ p.timeCost > 10 then
    .error (.formatError "Invalid KDF time cost")
  else if p.parallelism < 1 ∨ p.parallelism > 16 then
    .error (.formatError "Invalid KDF parallelism")
  else if p.keyLength < 32 ∨ p.keyLength > 32 then
    .error (.formatError "Invalid KDF key length")
  else if p.saltLength < 16 ∨ p.saltLength > 64 then
    .error (.formatError "Invalid KDF salt length")
  else
    .ok ()

/-- Translation of KdfAlgorithm from-u8 from crypto/kdf.rs. -/
def kdfAlgorithmFromU8 (v : Nat) : Except CryptoError Nat :=
  if v = 1 then .ok 1 else .error (.formatError "Unsupported KDF algorithm")

/-- Ideal model of an Argon2id-derived key: the derivation inputs themselves
(the external KDF is modelled as injective, which is its ideal behaviour). -/
structure KeyV where
  material : List Nat
  salt : List Nat
  params : KdfParamsV
deriving DecidableEq, Repr

/-- Translation of derive-key-with-material from crypto/kdf.rs: validates the
parameters, checks the actual salt length against the header parameter, and
derives the key (ideal model). -/
def derive_key_with_material (material salt : List Nat) (params : KdfParamsV) :
    Except CryptoError KeyV := do
  params.validate
  if salt.length ≠ params.saltLength then
    .error (.formatError "Invalid salt length")
  else
    .ok ⟨material, salt, params⟩

/-- Translation of derive-key-with-params from crypto/kdf.rs (password bytes
as the material). -/
def derive_key_with_params (pw salt : List Nat) (params : KdfParamsV) :
    Except CryptoError KeyV :=
  derive_key_with_material pw salt params

/-- Translation of hash-key-file from crypto/keyfile.rs, on the key-file
contents (the file is assumed regular; content and size are what the code
inspects).  The BLAKE3 digest uses the ideal hash model. -/
def hash_key_file (content : List Nat) : Except CryptoError (List Nat) :=
  if content.length = 0 then
    .error (.keyFileError "Key file is empty")
  else if content.length > 10485760 then
    .error (.keyFileError "Key file is too large")
  else
    .ok (blake3Hash content)

/-- Translation of combine-password-and-keyfile from crypto/keyfile.rs:
plain concatenation, no separator. -/
def combine_password_and_keyfile (pw hash : List Nat) : List Nat := pw ++ hash

/-- Compression algorithm from crypto/compression.rs. -/
inductive CAlg where
  | nocomp
  | zstd
deriving DecidableEq, Repr

/-- Translation of CompressionAlgorithm from-u8. -/
def compressionAlgFromU8 (v : Nat) : Except CryptoError CAlg :=
  if v = 0 then .ok .nocomp
  else if v = 1 then .ok .zstd
  else .error (.formatError "Unknown compression algorithm")

/-- Translation of CompressionAlgorithm to-u8. -/
def CAlg.toU8 : CAlg → Nat
  | .nocomp => 0
  | .zstd => 1

/-- Compression configuration from crypto/compression.rs (level is the
non-negative model of the i32 level; the header stores it as a byte). -/
structure CompressionConfig where
  algorithm : CAlg
  level : Nat
deriving DecidableEq, Repr

/-- CompressionConfig none. -/
def CompressionConfig.noneCfg : CompressionConfig := ⟨.nocomp, 0⟩

/-- CompressionConfig is-enabled. -/
def CompressionConfig.isEnabled (c : CompressionConfig) : Bool :=
  match c.algorithm with
  | .nocomp => false
  | .zstd => true

/-- Model of the external zstd compress-bound function: any monotone bound
that dominates the model compressed size; the source only needs a bound that
is used consistently by encryptor and decryptor. -/
def zstdCompressBound (n : Nat) : Nat := n + n / 256 + 64

/-- One element of an AEAD payload: a plain byte, or a symbolic ZSTD frame
standing for the output of the external zstd encoder on the given data. -/
inductive PayloadElem where
  | byte (b : Nat)
  | zframe (data : List Nat)
deriving DecidableEq, Repr

/-- One element of an on-disk encrypted container: a plain byte, a symbolic
ZSTD frame, or a symbolic AES-GCM authentication tag (ideal AEAD model: the
tag determines key, nonce, AAD and message, i.e. tag comparison is exact
authentication). -/
inductive CByte where
  | byte (b : Nat)
  | zframe (data : List Nat)
  | tagElem (key : KeyV) (nonce : List Nat) (aad : List Nat)
      (msg : List PayloadElem)
deriving DecidableEq, Repr

/-- Embed a payload element into a container element. -/
def payloadToC : PayloadElem → CByte
  | .byte b => .byte b
  | .zframe d => .zframe d

/-- Inverse of the payload embedding (a tag element is never a payload). -/
def cToPayload : CByte → Option PayloadElem
  | .byte b => some (.byte b)
  | .zframe d => some (.zframe d)
  | .tagElem _ _ _ _ => none

/-- Byte value of a payload element (the bytes the decryptor writes). -/
def payloadByteVal : PayloadElem → Nat
  | .byte b => b
  | .zframe _ => 0

/-- Byte value of a container element, used when the parser reads header
fields (real on-disk data is always plain bytes). -/
def cByteVal : CByte → Nat
  | .byte b => b
  | .zframe _ => 0
  | .tagElem _ _ _ _ => 0

/-- Convert a read ciphertext body back to a payload, failing if a symbolic
tag element occurs inside the body. -/
def allPayload : List CByte → Option (List PayloadElem)
  | [] => some []
  | s :: t => do
    let p ← cToPayload s
    let r ← allPayload t
    pure (p :: r)

/-- Translation of compress from crypto/compression.rs, with the external
zstd encoder modelled as a single symbolic frame holding the input. -/
def compressP (cfg : CompressionConfig) (data : List Nat) : List PayloadElem :=
  match cfg.algorithm with
  | .nocomp => data.map .byte
  | .zstd => [.zframe data]

/-- Translation of decompress-with-limit from crypto/compression.rs: the
no-compression arm checks the size cap and returns the data; the zstd arm
decodes the symbolic frame with the incremental hard output cap of the
source (total output above the cap fails). -/
def decompress_with_limit (body : List PayloadElem) (alg : CAlg)
    (maxSize : Nat) : Except CryptoError (List Nat) :=
  match alg with
  | .nocomp =>
    if body.length > maxSize then
      .error (.formatError "Decompressed data exceeds expected size")
    else
      .ok (body.map payloadByteVal)
  | .zstd =>
    match body with
    | [.zframe d] =>
      if d.length ≤ maxSize then .ok d
      else .error (.formatError "Decompressed data exceeds expected size")
    | _ => .error (.formatError "Decompression failed")

/-- Ideal AES-256-GCM 16-byte tag block for the given key, nonce, AAD and
message (first element symbolic, remainder padding to the on-disk tag
size). -/
def gcmTagBlock (key : KeyV) (nonce aad : List Nat)
    (msg : List PayloadElem) : List CByte :=
  CByte.tagElem key nonce aad msg :: List.replicate 15 (CByte.byte 0)

/-- Ideal AES-256-GCM encryption: ciphertext body of the same length as the
message followed by the 16-byte tag block. -/
def gcmEncrypt (key : KeyV) (nonce aad : List Nat)
    (msg : List PayloadElem) : List CByte :=
  msg.map payloadToC ++ gcmTagBlock key nonce aad msg

/-- Ideal AES-256-GCM decryption: succeeds exactly on outputs of gcmEncrypt
for the same key, nonce and AAD (tag verification). -/
def gcmDecrypt (key : KeyV) (nonce aad : List Nat) (ct : List CByte) :
    Option (List PayloadElem) :=
  if ct.length < 16 then none
  else
    match allPayload (ct.take (ct.length - 16)) with
    | none => none
    | some msg =>
      if ct.drop (ct.length - 16) = gcmTagBlock key nonce aad msg then
        some msg
      else
        none

/-- Translation of build-header from streaming.rs: the common prefix, then
the V5 or V7 compression fields (algorithm, level byte, original size), then
the V6 or V7 flags byte. -/
def buildHeader (version : Nat) (params : KdfParamsV)
    (salt baseNonce : List Nat) (chunkSize totalChunks : Nat)
    (comp : Option (CAlg × Nat × Nat)) (flags : Option Nat) : List Nat :=
  [version] ++ u32le salt.length ++ [params.algorithm] ++
    u32le params.memoryCostKib ++ u32le params.timeCost ++
    u32le params.parallelism ++ u32le params.keyLength ++
    salt ++ baseNonce ++ u32le chunkSize ++ u64le totalChunks ++
    (match comp with
     | some (alg, level, origSize) => [alg.toU8, level % 256] ++ u64le origSize
     | none => []) ++
    (match flags with
     | some f => [f]
     | none => [])

/-- Translation of the total-chunk computation of encrypt-file-streaming:
one chunk for an empty input, otherwise size divided by chunk size, plus one
when there is a remainder. -/
def encTotalChunks (fileSize chunkSize : Nat) : Nat :=
  if fileSize = 0 then 1
  else fileSize / chunkSize + (if fileSize % chunkSize ≠ 0 then 1 else 0)

/-- Translation of max-ciphertext-len from streaming.rs (the checked-add
overflow cannot occur over Nat). -/
def maxCiphertextLen (chunkSize : Nat) (compression : Option CAlg) : Nat :=
  (match compression with
   | some .zstd => zstdCompressBound chunkSize
   | _ => chunkSize) + 16

/-- Translation of the chunk loop of encrypt-file-streaming: for each index,
read up to chunk-size plaintext bytes, optionally compress, derive the chunk
nonce, AEAD-encrypt with the header as AAD, check the ciphertext bound, and
emit the length-prefixed frame. -/
def encLoop (key : KeyV) (hdr baseNonce : List Nat) (cfg : CompressionConfig)
    (useComp : Bool) (input : List Nat) (chunkSize fileSize maxCt : Nat) :
    Nat → Nat → Except CryptoError (List CByte)
  | 0, _ => .ok []
  | count + 1, idx =>
    let remaining := fileSize - idx * chunkSize
    let bytesToRead := min chunkSize remaining
    let chunk := (input.drop (idx * chunkSize)).take bytesToRead
    let msg := if useComp then compressP cfg chunk else chunk.map .byte
    let nonce := derive_chunk_nonce baseNonce idx
    let ct := gcmEncrypt key nonce hdr msg
    if ct.length > maxCt then
      .error (.formatError "Encrypted chunk length exceeds max")
    else
      match encLoop key hdr baseNonce cfg useComp input chunkSize fileSize
          maxCt count (idx + 1) with
      | .error e => .error e
      | .ok rest => .ok ((u32le ct.length).map CByte.byte ++ ct ++ rest)

/-- Container version chosen by encrypt-file-streaming from the compression
and key-file choices. -/
def versionFor : Bool → Bool → Nat
  | false, false => 4
  | true, false => 5
  | false, true => 6
  | true, true => 7

/-- Translation of encrypt-file-streaming (pure core): the input file content
is passed as an optional byte list (none models a missing file), the salt and
the final base nonce (CSPRNG output already XORed with the timestamp) are
explicit parameters, and the result is the container content. -/
def encryptCore (input : Option (List Nat)) (pw : List Nat)
    (chunkSize0 : Nat) (compression : Option CompressionConfig)
    (keyFile : Option (List Nat)) (salt baseNonce : List Nat) :
    Except CryptoError (List CByte) :=
  if pw = [] then .error (.formatError "Password cannot be empty")
  else
    let chunkSize := if chunkSize0 = 0 then 1048576 else chunkSize0
    if chunkSize > 16777216 then
      .error (.formatError "Chunk size exceeds maximum")
    else
      match input with
      | none => .error (.io "No such file")
      | some inputBytes => do
        let fileSize := inputBytes.length
        let params := defaultKdfParams
        let key ← (match keyFile with
          | some kfc => do
            let h ← hash_key_file kfc
            derive_key_with_material (combine_password_and_keyfile pw h)
              salt params
          | none => derive_key_with_params pw salt params)
        let totalChunks := encTotalChunks fileSize chunkSize
        if totalChunks > 10000000 then
          .error (.formatError "File too large for encryption")
        else do
          let useKeyFile := keyFile.isSome
          let cfg := compression.getD CompressionConfig.noneCfg
          let useComp := cfg.isEnabled
          let version : Nat := versionFor useComp useKeyFile
          let flags : Nat := if useKeyFile then 1 else 0
          let maxCt := maxCiphertextLen chunkSize
            (if useComp then some cfg.algorithm else none)
          let hdr := buildHeader version params salt baseNonce chunkSize
            totalChunks
            (if useComp then some (cfg.algorithm, cfg.level, fileSize)
             else none)
            (if useKeyFile then some flags else none)
          let body ← encLoop key hdr baseNonce cfg useComp inputBytes
            chunkSize fileSize maxCt totalChunks 0
          .ok (hdr.map CByte.byte ++ body)

/-- Exact sequential read of n container elements (read-exact in the
source; none models the unexpected-end-of-file I/O error). -/
def readExact : Nat → List CByte → Option (List CByte × List CByte)
  | 0, rest => some ([], rest)
  | _ + 1, [] => none
  | n + 1, x :: t =>
    match readExact n t with
    | none => none
    | some (a, b) => some (x :: a, b)

/-- Parsed header fields of decrypt-file-streaming. -/
structure HdrInfo where
  version : Nat
  params : KdfParamsV
  salt : List Nat
  baseNonce : List Nat
  chunkSize : Nat
  totalChunks : Nat
  compAlg : Option CAlg
  level : Nat
  origSize : Nat
  hasFlags : Bool
  flags : Nat
deriving Repr

/-- Tail of the header parse of decrypt-file-streaming: the V5 or V7
compression fields, the original-size cross-field check, and the V6 or V7
flags byte, in source order. -/
def parseHeaderTail (hasComp hasFlags : Bool) (version : Nat)
    (params : KdfParamsV) (saltB nonceB : List CByte)
    (chunkSize totalChunks : Nat) (rest : List CByte) :
    Except CryptoError (HdrInfo × List CByte) :=
  match (if hasComp then
      (match readExact 1 rest with
       | none => .error (.io "unexpected end of file")
       | some (calgB, s0) =>
         match compressionAlgFromU8 (leVal (calgB.map cByteVal)) with
         | .error e => .error e
         | .ok alg =>
           match readExact 1 s0 with
           | none => .error (.io "unexpected end of file")
           | some (lvlB, s1) =>
             match readExact 8 s1 with
             | none => .error (.io "unexpected end of file")
             | some (osB, s2) =>
               .ok ((some alg, leVal (lvlB.map cByteVal),
                 leVal (osB.map cByteVal)), s2))
    else .ok ((none, 0, 0), rest) :
      Except CryptoError ((Option CAlg × Nat × Nat) × List CByte)) with
  | .error e => .error e
  | .ok ((compAlg, level, origSize), r11) =>
    if hasComp ∧ origSize > totalChunks * chunkSize then
      .error (.formatError "Invalid original size")
    else
      match (if hasFlags then
          (match readExact 1 r11 with
           | none => .error (.io "unexpected end of file")
           | some (fB, r12) => .ok (leVal (fB.map cByteVal), r12))
        else .ok (0, r11) : Except CryptoError (Nat × List CByte)) with
      | .error e => .error e
      | .ok (flags, r13) =>
        .ok (⟨version, params, saltB.map cByteVal, nonceB.map cByteVal,
          chunkSize, totalChunks, compAlg, level, origSize, hasFlags,
          flags⟩, r13)

/-- Translation of the sequential header parse of decrypt-file-streaming
(field order and every validation in source order). -/
def parseHeaderC (data : List CByte) :
    Except CryptoError (HdrInfo × List CByte) :=
  match readExact 1 data with
  | none => .error (.io "unexpected end of file")
  | some (verB, r0) =>
    let version := leVal (verB.map cByteVal)
    if ¬ (version = 4 ∨ version = 5 ∨ version = 6 ∨ version = 7) then
      .error (.formatError "Unsupported file format version")
    else
      let hasComp := version = 5 ∨ version = 7
      let hasFlags := version = 6 ∨ version = 7
      match readExact 4 r0 with
      | none => .error (.io "unexpected end of file")
      | some (saltLenB, r1) =>
        let saltLen := leVal (saltLenB.map cByteVal)
        match readExact 1 r1 with
        | none => .error (.io "unexpected end of file")
        | some (algB, r2) =>
          match kdfAlgorithmFromU8 (leVal (algB.map cByteVal)) with
          | .error e => .error e
          | .ok alg =>
            match readExact 4 r2 with
            | none => .error (.io "unexpected end of file")
            | some (memB, r3) =>
              match readExact 4 r3 with
              | none => .error (.io "unexpected end of file")
              | some (timeB, r4) =>
                match readExact 4 r4 with
                | none => .error (.io "unexpected end of file")
                | some (parB, r5) =>
                  match readExact 4 r5 with
                  | none => .error (.io "unexpected end of file")
                  | some (keyLenB, r6) =>
                    let params : KdfParamsV :=
                      ⟨alg, leVal (memB.map cByteVal),
                       leVal (timeB.map cByteVal),
                       leVal (parB.map cByteVal),
                       leVal (keyLenB.map cByteVal), saltLen⟩
                    match params.validate with
                    | .error e => .error e
                    | .ok _ =>
                      match readExact saltLen r6 with
                      | none => .error (.io "unexpected end of file")
                      | some (saltB, r7) =>
                        match readExact 12 r7 with
                        | none => .error (.io "unexpected end of file")
                        | some (nonceB, r8) =>
                          match readExact 4 r8 with
                          | none => .error (.io "unexpected end of file")
                          | some (csB, r9) =>
                            let chunkSize := leVal (csB.map cByteVal)
                            if chunkSize = 0 ∨ chunkSize > 16777216 then
                              .error (.formatError "Invalid chunk size")
                            else
                              match readExact 8 r9 with
                              | none => .error (.io "unexpected end of file")
                              | some (tcB, r10) =>
                                let totalChunks := leVal (tcB.map cByteVal)
                                if totalChunks > 10000000 then
                                  .error (.formatError "File too large")
                                else
                                  parseHeaderTail hasComp hasFlags version
                                    params saltB nonceB chunkSize totalChunks
                                    r10

/-- Translation of the chunk loop of decrypt-file-streaming: for each index,
read the 4-byte length, validate it against the ciphertext bound, read the
ciphertext, AEAD-decrypt with the reconstructed header as AAD (tag mismatch
is InvalidPassword), decompress or size-check against the expected plaintext
length, and accumulate plaintext and the written counter. -/
def decLoop (key : KeyV) (hdrBytes baseNonce : List Nat)
    (chunkSize : Nat) (compAlg : Option CAlg) (origSize maxCt : Nat) :
    Nat → Nat → Nat → List CByte → Except CryptoError (List Nat × Nat)
  | 0, _, written, _ => .ok ([], written)
  | count + 1, idx, written, rest =>
    match readExact 4 rest with
    | none => .error (.io "unexpected end of file")
    | some (lenB, r1) =>
      let chunkLen := leVal (lenB.map cByteVal)
      if chunkLen > maxCt then
        .error (.formatError "Invalid chunk length")
      else
        match readExact chunkLen r1 with
        | none => .error (.io "unexpected end of file")
        | some (ct, r2) =>
          let nonce := derive_chunk_nonce baseNonce idx
          match gcmDecrypt key nonce hdrBytes ct with
          | none => .error .invalidPassword
          | some msg =>
            let expected := if compAlg.isSome then
                min chunkSize (origSize - written)
              else chunkSize
            match (match compAlg with
              | some alg => decompress_with_limit msg alg expected
              | none =>
                if msg.length > expected then
                  .error (.formatError "Decrypted chunk exceeds expected size")
                else .ok (msg.map payloadByteVal) :
                Except CryptoError (List Nat)) with
            | .error e => .error e
            | .ok pt =>
              match decLoop key hdrBytes baseNonce chunkSize compAlg origSize
                  maxCt count (idx + 1) (written + pt.length) r2 with
              | .error e => .error e
              | .ok (tail, w) => .ok (pt ++ tail, w)

/-- Translation of decrypt-file-streaming (pure core): the container content
is passed as an optional element list (none models a missing file), and the
result is the decrypted plaintext bytes. -/
def decryptCore (input : Option (List CByte)) (pw : List Nat)
    (keyFile : Option (List Nat)) : Except CryptoError (List Nat) :=
  if pw = [] then .error (.formatError "Password cannot be empty")
  else
    match input with
    | none => .error (.io "No such file")
    | some data =>
      match parseHeaderC data with
      | .error e => .error e
      | .ok (hdr, rest) =>
        let kfRequired : Bool := hdr.flags &&& 1 != 0
        if kfRequired && keyFile.isNone then
          .error .keyFileRequired
        else
          let hdrBytes := buildHeader hdr.version hdr.params hdr.salt
            hdr.baseNonce hdr.chunkSize hdr.totalChunks
            (hdr.compAlg.map fun a => (a, hdr.level, hdr.origSize))
            (if hdr.hasFlags then some hdr.flags else none)
          match (match kfRequired, keyFile with
            | true, some kfc => do
              let h ← hash_key_file kfc
              derive_key_with_material (combine_password_and_keyfile pw h)
                hdr.salt hdr.params
            | _, _ => derive_key_with_params pw hdr.salt hdr.params :
            Except CryptoError KeyV) with
          | .error e => .error e
          | .ok key =>
            let maxCt := maxCiphertextLen hdr.chunkSize hdr.compAlg
            match decLoop key hdrBytes hdr.baseNonce hdr.chunkSize hdr.compAlg
                hdr.origSize maxCt hdr.totalChunks 0 0 rest with
            | .error e => .error e
            | .ok (pt, written) =>
              if hdr.compAlg.isSome ∧ written ≠ hdr.origSize then
                .error (.formatError "Decrypted size mismatch")
              else .ok pt

/-- Error taxonomy of the specification (section 7): success, wrong
credential (AEAD tag failure), structural invalidity, truncation or other
I/O, missing key file, key-file failure. -/
inductive DecOutcome where
  | success (pt : List Nat)
  | wrongCredential
  | structural
  | ioTrunc
  | keyFileMissing
  | keyFileFailure
deriving DecidableEq, Repr

/-- The taxonomy kind of a concrete error value, following the specification
table: InvalidPassword is the wrong-credential kind, FormatError the
structural kind, Io the I/O kind, KeyFileRequired and KeyFileError the two
key-file kinds. -/
def errOutcome : CryptoError → DecOutcome
  | .invalidPassword => .wrongCredential
  | .formatError _ => .structural
  | .io _ => .ioTrunc
  | .keyFileRequired => .keyFileMissing
  | .keyFileError _ => .keyFileFailure
  | _ => .structural

/-- The taxonomy kind of a decryption result. -/
def outcomeKind : Except CryptoError (List Nat) → DecOutcome
  | .ok pt => .success pt
  | .error e => errOutcome e

/-- Classify the error of a fallible step by its taxonomy kind, keeping
successes. -/
def mapErr {α : Type} : Except CryptoError α → Except DecOutcome α
  | .ok x => .ok x
  | .error e => .error (errOutcome e)

/-- Spec-side tail of the header validation: compression fields, the
original-size cross-field rule and the flags byte, classified by taxonomy
kind. -/
def specHeaderTail (hasComp hasFlags : Bool) (version : Nat)
    (params : KdfParamsV) (saltB nonceB : List CByte)
    (chunkSize totalChunks : Nat) (rest : List CByte) :
    Except DecOutcome (HdrInfo × List CByte) :=
  match (if hasComp then
      (match readExact 1 rest with
       | none => .error .ioTrunc
       | some (calgB, s0) =>
         match compressionAlgFromU8 (leVal (calgB.map cByteVal)) with
         | .error _ => .error .structural
         | .ok alg =>
           match readExact 1 s0 with
           | none => .error .ioTrunc
           | some (lvlB, s1) =>
             match readExact 8 s1 with
             | none => .error .ioTrunc
             | some (osB, s2) =>
               .ok ((some alg, leVal (lvlB.map cByteVal),
                 leVal (osB.map cByteVal)), s2))
    else .ok ((none, 0, 0), rest) :
      Except DecOutcome ((Option CAlg × Nat × Nat) × List CByte)) with
  | .error e => .error e
  | .ok ((compAlg, level, origSize), r11) =>
    if hasComp ∧ origSize > totalChunks * chunkSize then
      .error .structural
    else
      match (if hasFlags then
          (match readExact 1 r11 with
           | none => .error .ioTrunc
           | some (fB, r12) => .ok (leVal (fB.map cByteVal), r12))
        else .ok (0, r11) : Except DecOutcome (Nat × List CByte)) with
      | .error e => .error e
      | .ok (flags, r13) =>
        .ok (⟨version, params, saltB.map cByteVal, nonceB.map cByteVal,
          chunkSize, totalChunks, compAlg, level, origSize, hasFlags,
          flags⟩, r13)

/-- Spec-side header validation (sections 4.5 and 7): same byte layout and
the same conditions as the decryptor, but each failure is classified
directly by its taxonomy kind as the spec words it: truncation is an I/O
failure, every violated validation rule (unknown version, KDF field out of
range, invalid chunk size, chunk count too large, unknown compression
algorithm, inconsistent original size) is a structural failure. -/
def specHeaderOutcome (data : List CByte) :
    Except DecOutcome (HdrInfo × List CByte) :=
  match readExact 1 data with
  | none => .error .ioTrunc
  | some (verB, r0) =>
    let version := leVal (verB.map cByteVal)
    if ¬ (version = 4 ∨ version = 5 ∨ version = 6 ∨ version = 7) then
      .error .structural
    else
      let hasComp := version = 5 ∨ version = 7
      let hasFlags := version = 6 ∨ version = 7
      match readExact 4 r0 with
      | none => .error .ioTrunc
      | some (saltLenB, r1) =>
        let saltLen := leVal (saltLenB.map cByteVal)
        match readExact 1 r1 with
        | none => .error .ioTrunc
        | some (algB, r2) =>
          match kdfAlgorithmFromU8 (leVal (algB.map cByteVal)) with
          | .error _ => .error .structural
          | .ok alg =>
            match readExact 4 r2 with
            | none => .error .ioTrunc
            | some (memB, r3) =>
              match readExact 4 r3 with
              | none => .error .ioTrunc
              | some (timeB, r4) =>
                match readExact 4 r4 with
                | none => .error .ioTrunc
                | some (parB, r5) =>
                  match readExact 4 r5 with
                  | none => .error .ioTrunc
                  | some (keyLenB, r6) =>
                    let params : KdfParamsV :=
                      ⟨alg, leVal (memB.map cByteVal),
                       leVal (timeB.map cByteVal),
                       leVal (parB.map cByteVal),
                       leVal (keyLenB.map cByteVal), saltLen⟩
                    match params.validate with
                    | .error _ => .error .structural
                    | .ok _ =>
                      match readExact saltLen r6 with
                      | none => .error .ioTrunc
                      | some (saltB, r7) =>
                        match readExact 12 r7 with
                        | none => .error .ioTrunc
                        | some (nonceB, r8) =>
                          match readExact 4 r8 with
                          | none => .error .ioTrunc
                          | some (csB, r9) =>
                            let chunkSize := leVal (csB.map cByteVal)
                            if chunkSize = 0 ∨ chunkSize > 16777216 then
                              .error .structural
                            else
                              match readExact 8 r9 with
                              | none => .error .ioTrunc
                              | some (tcB, r10) =>
                                let totalChunks := leVal (tcB.map cByteVal)
                                if totalChunks > 10000000 then
                                  .error .structural
                                else
                                  specHeaderTail hasComp hasFlags version
                                    params saltB nonceB chunkSize totalChunks
                                    r10

/-- Spec-side classification of the chunk loop (sections 4.7 and 7): per
chunk, missing bytes are I/O failures, an over-bound declared length is
structural, an AEAD tag mismatch is the wrong-credential failure, and an
over-cap or over-size decompressed payload is structural. -/
def specChunksOutcome (key : KeyV) (hdrBytes baseNonce : List Nat)
    (chunkSize : Nat) (compAlg : Option CAlg) (origSize maxCt : Nat) :
    Nat → Nat → Nat → List CByte → Except DecOutcome (List Nat × Nat)
  | 0, _, written, _ => .ok ([], written)
  | count + 1, idx, written, rest =>
    match readExact 4 rest with
    | none => .error .ioTrunc
    | some (lenB, r1) =>
      let chunkLen := leVal (lenB.map cByteVal)
      if chunkLen > maxCt then
        .error .structural
      else
        match readExact chunkLen r1 with
        | none => .error .ioTrunc
        | some (ct, r2) =>
          let nonce := derive_chunk_nonce baseNonce idx
          match gcmDecrypt key nonce hdrBytes ct with
          | none => .error .wrongCredential
          | some msg =>
            let expected := if compAlg.isSome then
                min chunkSize (origSize - written)
              else chunkSize
            match (match compAlg with
              | some alg => decompress_with_limit msg alg expected
              | none =>
                if msg.length > expected then
                  .error (.formatError "Decrypted chunk exceeds expected size")
                else .ok (msg.map payloadByteVal) :
                Except CryptoError (List Nat)) with
            | .error _ => .error .structural
            | .ok pt =>
              match specChunksOutcome key hdrBytes baseNonce chunkSize compAlg
                  origSize maxCt count (idx + 1) (written + pt.length) r2 with
              | .error e => .error e
              | .ok (tail, w) => .ok (pt ++ tail, w)

/-- Spec-side taxonomy classification of a whole decryption (sections 4.7
and 7): the spec state machine in order, with each failure assigned the
kind the spec gives it.  The empty-password precondition is a structural
(format) violation per section 4.6. -/
def decryptOutcome (input : Option (List CByte)) (pw : List Nat)
    (keyFile : Option (List Nat)) : DecOutcome :=
  if pw = [] then .structural
  else
    match input with
    | none => .ioTrunc
    | some data =>
      match specHeaderOutcome data with
      | .error o => o
      | .ok (hdr, rest) =>
        let kfRequired : Bool := hdr.flags &&& 1 != 0
        if kfRequired && keyFile.isNone then
          .keyFileMissing
        else
          let hdrBytes := buildHeader hdr.version hdr.params hdr.salt
            hdr.baseNonce hdr.chunkSize hdr.totalChunks
            (hdr.compAlg.map fun a => (a, hdr.level, hdr.origSize))
            (if hdr.hasFlags then some hdr.flags else none)
          match (match kfRequired, keyFile with
            | true, some kfc => do
              let h ← hash_key_file kfc
              derive_key_with_material (combine_password_and_keyfile pw h)
                hdr.salt hdr.params
            | _, _ => derive_key_with_params pw hdr.salt hdr.params :
            Except CryptoError KeyV) with
          | .error e => errOutcome e
          | .ok key =>
            let maxCt := maxCiphertextLen hdr.chunkSize hdr.compAlg
            match specChunksOutcome key hdrBytes hdr.baseNonce hdr.chunkSize
                hdr.compAlg hdr.origSize maxCt hdr.totalChunks 0 0 rest with
            | .error o => o
            | .ok (pt, written) =>
              if hdr.compAlg.isSome ∧ written ≠ hdr.origSize then
                .structural
              else .success pt

/-- Two-cell file-system state for one streaming operation: the requested
output path and the operation-private temp file (the only two paths the
operation writes). -/
structure FS where
  dest : Option (List CByte)
  temp : Option (List CByte)
deriving DecidableEq, Repr

/-- Translation of the on-disk behaviour of encrypt-file-streaming: on any
error of the pipeline the temp file has been removed (guaranteed removal on
drop) and nothing else was touched; on success, an existing destination is
first removed when overwrite is allowed, then the temp file is atomically
renamed onto the destination; if the rename fails the temp file is removed
and the I/O error returned. -/
def encrypt_file_streaming (input : Option (List Nat)) (pw : List Nat)
    (chunkSize0 : Nat) (compression : Option CompressionConfig)
    (keyFile : Option (List Nat)) (salt baseNonce : List Nat)
    (allowOverwrite renameOk : Bool) (fs : FS) :
    FS × Except CryptoError Unit :=
  match encryptCore input pw chunkSize0 compression keyFile salt baseNonce with
  | .error e => (⟨fs.dest, none⟩, .error e)
  | .ok ct =>
    let destAfterRemove := if allowOverwrite && fs.dest.isSome then none
      else fs.dest
    if renameOk then (⟨some ct, none⟩, .ok ())
    else (⟨destAfterRemove, none⟩, .error (.io "rename failed"))

/-- Translation of the on-disk behaviour of decrypt-file-streaming; same
persistence sequence as the encryptor. -/
def decrypt_file_streaming (input : Option (List CByte)) (pw : List Nat)
    (keyFile : Option (List Nat)) (allowOverwrite renameOk : Bool)
    (fs : FS) : FS × Except CryptoError Unit :=
  match decryptCore input pw keyFile with
  | .error e => (⟨fs.dest, none⟩, .error e)
  | .ok pt =>
    let destAfterRemove := if allowOverwrite && fs.dest.isSome then none
      else fs.dest
    if renameOk then (⟨some (pt.map CByte.byte), none⟩, .ok ())
    else (⟨destAfterRemove, none⟩, .error (.io "rename failed"))

/-- One path component of a TAR entry name. -/
inductive PComp where
  | parentDir
  | curDir
  | normal (s : String)
deriving DecidableEq, Repr

/-- A TAR entry path: absolute flag plus components. -/
structure EPath where
  absolute : Bool
  comps : List PComp
deriving DecidableEq, Repr

/-- TAR entry type (the kinds distinguished by commands/archive.rs). -/
inductive EType where
  | regular
  | continuous
  | directory
  | symlink
  | hardlink
  | other
deriving DecidableEq, Repr

/-- A parsed TAR entry: path, entry type and declared size. -/
structure TarEntry where
  path : EPath
  etype : EType
  size : Nat
deriving DecidableEq, Repr

/-- An entry path that is absolute or contains a parent-directory
component. -/
def badEntryPath (e : TarEntry) : Bool :=
  e.path.absolute || e.path.comps.contains PComp.parentDir

/-- Translation of validate-archive-entry from commands/archive.rs:
absolute paths and parent-directory components are path traversal, symlink
entries are archive errors, everything else passes. -/
def validate_archive_entry (e : TarEntry) : Except CryptoError Unit :=
  if e.path.absolute then
    .error (.pathTraversal "Archive contains absolute path")
  else if e.path.comps.contains PComp.parentDir then
    .error (.pathTraversal "Archive contains path traversal")
  else if e.etype = EType.symlink then
    .error (.archiveError
      "Archive contains symlinks which are not allowed for security reasons")
  else
    .ok ()

/-- Translation of the first (validation) pass of extract-tar-zstd-archive:
validate each entry in order, accumulate declared sizes and fail on the
decompression-bomb cap. -/
def archivePassOne : List TarEntry → Nat → Nat → Except CryptoError Unit
  | [], _, _ => .ok ()
  | e :: rest, totalSize, maxSz =>
    match validate_archive_entry e with
    | .error err => .error err
    | .ok _ =>
      let ts := totalSize + e.size
      if ts > maxSz then
        .error (.archiveError
          "Archive extraction would exceed safe size limit")
      else
        archivePassOne rest ts maxSz

/-- Translation of extract-tar-zstd-archive from commands/archive.rs over
the parsed entry list: output-directory check, bomb cap computed from the
archive size, validation pass, then the extraction pass, which materialises
exactly the regular and continuous entries.  The first component of the
result is the list of written entry paths (empty whenever the first pass
fails, i.e. nothing was written). -/
def extract_tar_zstd_archive (entries : List TarEntry) (archiveSize : Nat)
    (outDirExists : Bool) : List EPath × Except CryptoError Unit :=
  if !outDirExists then
    ([], .error (.formatError "Output directory does not exist"))
  else
    let maxSz := min (archiveSize * 100) 10737418240
    match archivePassOne entries 0 maxSz with
    | .error e => ([], .error e)
    | .ok _ =>
      ((entries.filter fun e =>
          e.etype == EType.regular || e.etype == EType.continuous).map
        (·.path), .ok ())

/-- The characters stripped by sanitize-archive-name. -/
def badFsChar (c : Char) : Bool :=
  c == '/' || c == '\\' || c == '<' || c == '>' || c == ':' || c == '"' ||
    c == '|' || c == '?' || c == '*'

/-- Model of Rust str trim (leading and trailing whitespace). -/
def trimChars (cs : List Char) : List Char :=
  ((cs.dropWhile Char.isWhitespace).reverse.dropWhile
    Char.isWhitespace).reverse

/-- UTF-8 byte length of a character string, as Rust str len measures it. -/
def utf8Len (cs : List Char) : Nat := (cs.map Char.utf8Size).sum

/-- Model of Rust string slicing at a byte index: the characters whose UTF-8
bytes fill exactly the requested prefix, or none when the index is not a
character boundary (in which case Rust panics). -/
def sliceBytesTo : List Char → Nat → Option (List Char)
  | _, 0 => some []
  | [], _ + 1 => none
  | c :: t, n + 1 =>
    if c.utf8Size ≤ n + 1 then
      (sliceBytesTo t (n + 1 - c.utf8Size)).map (c :: ·)
    else
      none

/-- Translation of sanitize-archive-name from commands/archive.rs: filter
the forbidden characters, trim whitespace, strip leading dots, then cap to
200 bytes by Rust byte-slicing; the none result models the panic when byte
200 is not a character boundary. -/
def sanitize_archive_name (name : List Char) : Option (List Char) :=
  let sanitized := name.filter fun c => !(badFsChar c)
  let trimmed := (trimChars sanitized).dropWhile fun c => c == '.'
  if utf8Len trimmed > 200 then
    sliceBytesTo trimmed 200
  else
    some trimmed

/-- Translation of generate-archive-name from commands/archive.rs: a
non-empty sanitised custom name plus the tar-zst extension, otherwise the
timestamped fallback (the clock is a parameter); none models a panic
propagated from the sanitiser. -/
def generate_archive_name (custom : Option (List Char))
    (timestamp : List Char) : Option (List Char) :=
  match custom with
  | some name =>
    match sanitize_archive_name name with
    | none => none
    | some s =>
      if s.isEmpty then
        some ("archive_".toList ++ timestamp ++ ".tar.zst".toList)
      else
        some (s ++ ".tar.zst".toList)
  | none => some ("archive_".toList ++ timestamp ++ ".tar.zst".toList)

/-- Header of a hand-crafted V6 container with an arbitrary flags byte:
default KDF parameters, an all-zero 16-byte salt and 12-byte base nonce,
chunk size 1 and a single chunk. -/
def mkV6Header (f : Nat) : List Nat :=
  buildHeader 6 defaultKdfParams (List.replicate 16 0) (List.replicate 12 0)
    1 1 none (some f)

/-- A hand-crafted V6 container with flags byte f, holding the single
plaintext byte 97 encrypted under the given password (no key file): used to
probe how the decryptor treats reserved flag bits. -/
def mkV6Container (f : Nat) (pw : List Nat) : List CByte :=
  let hdr := mkV6Header f
  let key : KeyV := ⟨pw, List.replicate 16 0, defaultKdfParams⟩
  let ct := gcmEncrypt key (derive_chunk_nonce (List.replicate 12 0) 0) hdr
    [.byte 97]
  hdr.map CByte.byte ++ (u32le ct.length).map CByte.byte ++ ct

/-- A concrete container produced by the encryptor: plaintext 1,2,3 under
password byte 104, chunk size 4, no compression, no key file, all-7 salt and
all-9 base nonce. -/
def ctSample : List CByte :=
  (encryptCore (some [1, 2, 3]) [104] 4 none none (List.replicate 16 7)
    (List.replicate 12 9)).toOption.getD []

/-! ## Helper lemmas -/

/-- Reading exactly the length of a prefix returns that prefix and the
remainder. -/
theorem readExact_append (xs r : List CByte) :
    readExact xs.length (xs ++ r) = some (xs, r) := by
  induction xs with
  | nil => rfl
  | cons x t ih => simp [readExact, ih]

/-- Variant of readExact_append with the length given as a hypothesis. -/
theorem readExact_append_of_len {xs : List CByte} {n : Nat}
    (h : xs.length = n) (r : List CByte) :
    readExact n (xs ++ r) = some (xs, r) := by
  subst h; exact readExact_append xs r

/-- Byte values of an embedded byte list. -/
theorem map_cByteVal_byte (xs : List Nat) :
    (xs.map CByte.byte).map cByteVal = xs := by
  induction xs with
  | nil => rfl
  | cons x t ih => simp [cByteVal, ih]

/-- The u32 little-endian round trip below 2 to the 32. -/
theorem leVal_u32le {n : Nat} (h : n < 4294967296) : leVal (u32le n) = n := by
  simp only [u32le, leVal]
  omega

/-- The u64 little-endian round trip below 2 to the 64. -/
theorem leVal_u64le {n : Nat} (h : n < 18446744073709551616) :
    leVal (u64le n) = n := by
  simp only [u64le, leVal]
  omega

/-- Every u64 little-endian digit is a byte. -/
theorem u64le_lt (n : Nat) : ∀ a ∈ u64le n, a < 256 := by
  simp only [u64le]
  intro a ha
  simp only [List.mem_cons, List.not_mem_nil, or_false] at ha
  rcases ha with h | h | h | h | h | h | h | h <;> subst h <;> omega

/-- The byte-list encoding is injective on byte lists. -/
theorem encB_inj : ∀ {xs ys : List Nat}, (∀ a ∈ xs, a < 256) →
    (∀ a ∈ ys, a < 256) → encB xs = encB ys → xs = ys := by
  intro xs
  induction xs with
  | nil =>
    intro ys _ hy h
    cases ys with
    | nil => rfl
    | cons b t =>
      exfalso
      simp only [encB] at h
      omega
  | cons a t ih =>
    intro ys hx hy h
    cases ys with
    | nil =>
      exfalso
      simp only [encB] at h
      omega
    | cons b s =>
      simp only [encB] at h
      have ha : a < 256 := hx a (by simp)
      have hb : b < 256 := hy b (by simp)
      have hab : a = b ∧ encB t = encB s := by constructor <;> omega
      have ht : t = s := ih (fun x hx2 => hx x (by simp [hx2]))
        (fun x hx2 => hy x (by simp [hx2])) hab.2
      rw [hab.1, ht]

/-- Taking up to the length is taking everything requested. -/
theorem take_min_length {α : Type} (l : List α) (n : Nat) :
    l.take (min n l.length) = l.take n := by
  rcases Nat.le_total n l.length with h | h
  · rw [Nat.min_eq_left h]
  · rw [Nat.min_eq_right h, List.take_of_length_le h,
      List.take_of_length_le (by simp)]

/-- The embedded-payload round trip. -/
theorem allPayload_map (msg : List PayloadElem) :
    allPayload (msg.map payloadToC) = some msg := by
  induction msg with
  | nil => rfl
  | cons p t ih =>
    cases p <;> simp [allPayload, payloadToC, cToPayload, ih]

/-- The ideal AEAD round trip: decryption restores the message encrypted
under the same key, nonce and AAD. -/
theorem gcmDecrypt_gcmEncrypt (key : KeyV) (nonce aad : List Nat)
    (msg : List PayloadElem) :
    gcmDecrypt key nonce aad (gcmEncrypt key nonce aad msg) = some msg := by
  have hlen : (gcmEncrypt key nonce aad msg).length = msg.length + 16 := by
    simp [gcmEncrypt, gcmTagBlock]
  have hsub : (gcmEncrypt key nonce aad msg).length - 16 = msg.length := by
    omega
  have htake : (gcmEncrypt key nonce aad msg).take msg.length =
      msg.map payloadToC := by
    have : msg.length = (msg.map payloadToC).length := by simp
    rw [gcmEncrypt, this, List.take_left]
  have hdrop : (gcmEncrypt key nonce aad msg).drop msg.length =
      gcmTagBlock key nonce aad msg := by
    have : msg.length = (msg.map payloadToC).length := by simp
    rw [gcmEncrypt, this, List.drop_left]
  rw [gcmDecrypt, if_neg (by omega), hsub, htake, hdrop, allPayload_map]
  simp

/-- Byte values of a byte-embedded payload. -/
theorem map_payloadByteVal_byte (xs : List Nat) :
    (xs.map PayloadElem.byte).map payloadByteVal = xs := by
  induction xs with
  | nil => rfl
  | cons x t ih => simp [payloadByteVal, ih]

/-! ## Claims C6 and C7: chunk-nonce derivation -/

/-- The chunk-nonce derivation as one hash expression (shared unfolding
lemma). -/
theorem derive_chunk_nonce_hash (baseNonce : List Nat)
    (chunkIndex : Nat) :
    derive_chunk_nonce baseNonce chunkIndex =
      (blake3Hash (chunkNonceDomain ++ baseNonce ++ u64le chunkIndex)).take
        12 := by
  simp [derive_chunk_nonce, B3Hasher.new, B3Hasher.update, B3Hasher.finalize]

/-- Claim C6: derive-chunk-nonce returns exactly the first 12 bytes of the
BLAKE3 hash (ideal model of the external blake3 crate) of the concatenation
of the domain tag, the 12 base-nonce bytes and the 8-byte little-endian
encoding of the chunk index; being an equation between Lean functions of
exactly these two arguments, it also establishes that the derivation is a
pure, deterministic function of them. -/
theorem c6_derive_chunk_nonce_algorithm (baseNonce : List Nat)
    (chunkIndex : Nat) :
    derive_chunk_nonce baseNonce chunkIndex =
      (blake3Hash (chunkNonceDomain ++ baseNonce ++ u64le chunkIndex)).take
        12 :=
  derive_chunk_nonce_hash baseNonce chunkIndex

/-- Claim C7: for a fixed base nonce of 12 bytes, distinct chunk indices in
the valid chunk range give distinct derived nonces (under the ideal,
collision-free model of BLAKE3). -/
theorem c7_nonce_uniqueness (baseNonce : List Nat) (i j : Nat)
    (hb : ∀ a ∈ baseNonce, a < 256) (hi : i < 10000000) (hj : j < 10000000)
    (hij : i ≠ j) :
    derive_chunk_nonce baseNonce i ≠ derive_chunk_nonce baseNonce j := by
  intro h
  rw [derive_chunk_nonce_hash, derive_chunk_nonce_hash] at h
  rw [blake3Hash, blake3Hash, show (12 : Nat) = 11 + 1 from rfl,
    List.take_succ_cons, List.take_succ_cons] at h
  rw [List.cons.injEq] at h
  have henc := h.1
  have hlists := @encB_inj (chunkNonceDomain ++ baseNonce ++ u64le i)
    (chunkNonceDomain ++ baseNonce ++ u64le j)
    (by
      intro a ha
      rcases List.mem_append.mp ha with h1 | h1
      · rcases List.mem_append.mp h1 with h2 | h2
        · revert h2; simp [chunkNonceDomain]; omega
        · exact hb a h2
      · exact u64le_lt i a h1)
    (by
      intro a ha
      rcases List.mem_append.mp ha with h1 | h1
      · rcases List.mem_append.mp h1 with h2 | h2
        · revert h2; simp [chunkNonceDomain]; omega
        · exact hb a h2
      · exact u64le_lt j a h1)
    henc
  have hle : u64le i = u64le j := by
    rw [List.append_assoc, List.append_assoc] at hlists
    exact List.append_cancel_left (List.append_cancel_left hlists)
  have : i = j := by
    have hi2 : leVal (u64le i) = i := leVal_u64le (by omega)
    have hj2 : leVal (u64le j) = j := leVal_u64le (by omega)
    rw [← hi2, ← hj2, hle]
  exact hij this

/-- Witness for claim C7 at base nonce zero and indices 0 and 1. -/
theorem c7_nonce_uniqueness_witness :
    derive_chunk_nonce (List.replicate 12 0) 0 ≠
      derive_chunk_nonce (List.replicate 12 0) 1 :=
  c7_nonce_uniqueness (List.replicate 12 0) 0 1
    (by intro a ha; simp at ha; omega) (by omega) (by omega) (by omega)

/-! ## Claim C9: archive-name sanitisation -/

set_option maxRecDepth 40000 in
/-- Claim C9 (code bug): the sanitiser is not total on non-ASCII input.  For
the name of 199 letters a followed by the two-byte character e-acute the
trimmed result is 201 UTF-8 bytes long, so the code byte-slices at index
200, which falls inside the final character: Rust string slicing panics
there.  The model returns none (the panic marker), so generate-archive-name
does not return a sanitised name for this input. -/
theorem c9_sanitize_panics_on_non_ascii :
    generate_archive_name (some (List.replicate 199 'a' ++ ['é'])) [] =
      none := by
  decide

/-! ## Claim C4: archive traversal resistance -/

/-- A traversing entry is rejected by validation with a path-traversal
error. -/
theorem validate_entry_bad (e : TarEntry) (h : badEntryPath e = true) :
    ∃ m, validate_archive_entry e = .error (.pathTraversal m) := by
  by_cases habs : e.path.absolute
  · exact ⟨"Archive contains absolute path",
      by rw [validate_archive_entry, if_pos habs]⟩
  · have hpar : e.path.comps.contains PComp.parentDir = true := by
      simp only [badEntryPath, Bool.or_eq_true] at h
      rcases h with h | h
      · exact absurd h habs
      · exact h
    exact ⟨"Archive contains path traversal", by
      rw [validate_archive_entry, if_neg habs, if_pos hpar]⟩

/-- A non-traversing, non-symlink entry passes validation. -/
theorem validate_entry_clean (e : TarEntry) (h1 : badEntryPath e = false)
    (h2 : e.etype ≠ EType.symlink) : validate_archive_entry e = .ok () := by
  simp only [badEntryPath, Bool.or_eq_false_iff] at h1
  rw [validate_archive_entry, if_neg (by rw [h1.1]; simp),
    if_neg (by rw [h1.2]; simp), if_neg h2]

/-- If some entry has a traversing path, the validation pass fails (with
some error). -/
theorem archivePassOne_fails_of_bad : ∀ (entries : List TarEntry)
    (ts maxSz : Nat), (∃ e ∈ entries, badEntryPath e = true) →
    ∃ err, archivePassOne entries ts maxSz = .error err := by
  intro entries
  induction entries with
  | nil =>
    intro ts maxSz h
    obtain ⟨e, he, -⟩ := h
    exact absurd he (List.not_mem_nil e)
  | cons e rest ih =>
    intro ts maxSz h
    match hv : validate_archive_entry e with
    | .error err => exact ⟨err, by rw [archivePassOne, hv]⟩
    | .ok _ =>
      have hgood : badEntryPath e = false := by
        by_contra hc
        obtain ⟨m, hm⟩ := validate_entry_bad e (by
          cases hb : badEntryPath e
          · exact absurd hb hc
          · rfl)
        rw [hv] at hm
        cases hm
      obtain ⟨x, hx, hbad⟩ := h
      have hxr : x ∈ rest := by
        rcases List.mem_cons.mp hx with rfl | hx2
        · rw [hgood] at hbad; cases hbad
        · exact hx2
      by_cases hcap : ts + e.size > maxSz
      · exact ⟨_, by
          rw [archivePassOne, hv]
          simp only []
          rw [if_pos hcap]⟩
      · obtain ⟨err, herr⟩ := ih (ts + e.size) maxSz ⟨x, hxr, hbad⟩
        exact ⟨err, by
          rw [archivePassOne, hv]
          simp only []
          rw [if_neg hcap]
          exact herr⟩

/-- If every entry before the first traversing entry passes validation and
keeps the running size within the cap, the validation pass fails with a
path-traversal error. -/
theorem archivePassOne_traversal : ∀ (pre : List TarEntry) (e : TarEntry)
    (post : List TarEntry) (ts maxSz : Nat),
    (∀ x ∈ pre, badEntryPath x = false ∧ x.etype ≠ EType.symlink) →
    ts + (pre.map TarEntry.size).sum ≤ maxSz →
    badEntryPath e = true →
    ∃ m, archivePassOne (pre ++ e :: post) ts maxSz =
      .error (.pathTraversal m) := by
  intro pre
  induction pre with
  | nil =>
    intro e post ts maxSz _ _ hbad
    obtain ⟨m, hm⟩ := validate_entry_bad e hbad
    exact ⟨m, by rw [List.nil_append, archivePassOne, hm]⟩
  | cons x pre ih =>
    intro e post ts maxSz hclean hsum hbad
    have hx := hclean x (List.mem_cons_self x pre)
    have hv := validate_entry_clean x hx.1 hx.2
    have hsum2 : ts + x.size + (pre.map TarEntry.size).sum ≤ maxSz := by
      simp only [List.map_cons, List.sum_cons] at hsum
      omega
    have hcap : ¬ ts + x.size > maxSz := by omega
    obtain ⟨m, hm⟩ := ih e post (ts + x.size) maxSz
      (fun y hy => hclean y (List.mem_cons_of_mem x hy)) hsum2 hbad
    refine ⟨m, ?_⟩
    rw [List.cons_append, archivePassOne, hv]
    simp only []
    rw [if_neg hcap]
    exact hm

/-- Claim C4 (amended): if any TAR entry has an absolute path or a
parent-directory component, extraction fails during the first (validation)
pass before any entry is written (no path is materialised); the error is
PathTraversal provided no entry before the traversing one is itself invalid
(a symlink) or pushes the declared total size over the decompression-bomb
cap (otherwise the earlier entry determines the error kind). -/
theorem c4_traversal_resistance :
    (∀ (entries : List TarEntry) (archiveSize : Nat) (outDirExists : Bool),
      (∃ e ∈ entries, badEntryPath e = true) →
      ∃ err, extract_tar_zstd_archive entries archiveSize outDirExists =
        ([], .error err)) ∧
    (∀ (pre : List TarEntry) (e : TarEntry) (post : List TarEntry)
      (archiveSize : Nat),
      (∀ x ∈ pre, badEntryPath x = false ∧ x.etype ≠ EType.symlink) →
      (pre.map TarEntry.size).sum ≤ min (archiveSize * 100) 10737418240 →
      badEntryPath e = true →
      ∃ m, extract_tar_zstd_archive (pre ++ e :: post) archiveSize true =
        ([], .error (.pathTraversal m))) := by
  constructor
  · intro entries archiveSize outDirExists hbad
    cases outDirExists with
    | false =>
      exact ⟨.formatError "Output directory does not exist", by
        rw [extract_tar_zstd_archive]; rfl⟩
    | true =>
      obtain ⟨err, herr⟩ := archivePassOne_fails_of_bad entries 0
        (min (archiveSize * 100) 10737418240) hbad
      refine ⟨err, ?_⟩
      rw [extract_tar_zstd_archive]
      simp only [Bool.not_true, Bool.false_eq_true, if_false]
      rw [herr]
  · intro pre e post archiveSize hclean hsum hbad
    obtain ⟨m, hm⟩ := archivePassOne_traversal pre e post 0
      (min (archiveSize * 100) 10737418240) hclean (by omega) hbad
    refine ⟨m, ?_⟩
    rw [extract_tar_zstd_archive]
    simp only [Bool.not_true, Bool.false_eq_true, if_false]
    rw [hm]

/-- Witness for claim C4 (amended) on a one-entry archive whose entry path
starts with a parent-directory component. -/
theorem c4_traversal_resistance_witness :
    ∃ m, extract_tar_zstd_archive
      [⟨⟨false, [PComp.parentDir, PComp.normal "escape.txt"]⟩,
        EType.regular, 4⟩] 10 true = ([], .error (.pathTraversal m)) :=
  c4_traversal_resistance.2 [] _ [] 10 (by intro x hx; cases hx)
    (by simp) (by decide)

/-- Counterexample for claim C4 as stated: an archive whose first entry is a
symlink and whose second entry has a traversing path fails the validation
pass with an ArchiveError for the symlink, not with PathTraversal, although
a traversing entry is present. -/
theorem c4_counterexample :
    extract_tar_zstd_archive
        [⟨⟨false, [PComp.normal "link"]⟩, EType.symlink, 0⟩,
         ⟨⟨false, [PComp.parentDir, PComp.normal "escape.txt"]⟩,
           EType.regular, 4⟩] 10 true =
      ([], .error (.archiveError
        "Archive contains symlinks which are not allowed for security reasons"))
      ∧ ∀ m, extract_tar_zstd_archive
        [⟨⟨false, [PComp.normal "link"]⟩, EType.symlink, 0⟩,
         ⟨⟨false, [PComp.parentDir, PComp.normal "escape.txt"]⟩,
           EType.regular, 4⟩] 10 true ≠
        ([], .error (.pathTraversal m)) := by
  refine ⟨rfl, ?_⟩
  intro m h
  rw [show extract_tar_zstd_archive
      [⟨⟨false, [PComp.normal "link"]⟩, EType.symlink, 0⟩,
       ⟨⟨false, [PComp.parentDir, PComp.normal "escape.txt"]⟩,
         EType.regular, 4⟩] 10 true =
    ([], .error (.archiveError
      "Archive contains symlinks which are not allowed for security reasons"))
    from rfl] at h
  simp at h

/-! ## Claims C3 and C10: on-disk failure behaviour -/

/-- Claim C3 (amended): a failed encrypt or decrypt leaves no temp file and
creates no file at the requested output path: if the output path held no
file before the call it holds none after; a pre-existing file is left in
place, except that with allow-overwrite set a failure of the final rename
leaves the pre-existing file already removed (see claim C10). -/
theorem c3_atomic_output :
    (∀ (input : Option (List Nat)) (pw : List Nat) (cs : Nat)
      (comp : Option CompressionConfig) (kf : Option (List Nat))
      (salt nonce : List Nat) (ao rok : Bool) (fs : FS) (e : CryptoError),
      fs.temp = none →
      (encrypt_file_streaming input pw cs comp kf salt nonce ao rok fs).2 =
        .error e →
      (encrypt_file_streaming input pw cs comp kf salt nonce ao rok
        fs).1.temp = none ∧
      ((encrypt_file_streaming input pw cs comp kf salt nonce ao rok
          fs).1.dest = fs.dest ∨
        (ao = true ∧ (encrypt_file_streaming input pw cs comp kf salt nonce
          ao rok fs).1.dest = none)) ∧
      (fs.dest = none →
        (encrypt_file_streaming input pw cs comp kf salt nonce ao rok
          fs).1.dest = none)) ∧
    (∀ (input : Option (List CByte)) (pw : List Nat)
      (kf : Option (List Nat)) (ao rok : Bool) (fs : FS) (e : CryptoError),
      fs.temp = none →
      (decrypt_file_streaming input pw kf ao rok fs).2 = .error e →
      (decrypt_file_streaming input pw kf ao rok fs).1.temp = none ∧
      ((decrypt_file_streaming input pw kf ao rok fs).1.dest = fs.dest ∨
        (ao = true ∧
          (decrypt_file_streaming input pw kf ao rok fs).1.dest = none)) ∧
      (fs.dest = none →
        (decrypt_file_streaming input pw kf ao rok fs).1.dest = none)) := by
  constructor
  · intro input pw cs comp kf salt nonce ao rok fs e _ herr
    rw [encrypt_file_streaming] at herr ⊢
    cases hc : encryptCore input pw cs comp kf salt nonce with
    | error e2 => simp [hc]
    | ok ct =>
      rw [hc] at herr
      cases rok with
      | true => simp at herr
      | false =>
        cases ao with
        | false => simp
        | true =>
          cases hd : fs.dest with
          | none => simp [hd]
          | some old => simp [hd]
  · intro input pw kf ao rok fs e _ herr
    rw [decrypt_file_streaming] at herr ⊢
    cases hc : decryptCore input pw kf with
    | error e2 => simp [hc]
    | ok pt =>
      rw [hc] at herr
      cases rok with
      | true => simp at herr
      | false =>
        cases ao with
        | false => simp
        | true =>
          cases hd : fs.dest with
          | none => simp [hd]
          | some old => simp [hd]

/-- Witness for claim C3 (amended): concrete failing encryption (empty
password) over a pre-existing destination file. -/
theorem c3_atomic_output_witness :
    (encrypt_file_streaming (some [104]) [] 4 none none
      (List.replicate 16 0) (List.replicate 12 0) true true
      ⟨some [CByte.byte 7], none⟩).1.temp = none ∧
    ((encrypt_file_streaming (some [104]) [] 4 none none
        (List.replicate 16 0) (List.replicate 12 0) true true
        ⟨some [CByte.byte 7], none⟩).1.dest =
        (FS.mk (some [CByte.byte 7]) none).dest ∨
      (true = true ∧ (encrypt_file_streaming (some [104]) [] 4 none none
        (List.replicate 16 0) (List.replicate 12 0) true true
        ⟨some [CByte.byte 7], none⟩).1.dest = none)) ∧
    ((FS.mk (some [CByte.byte 7]) none).dest = none →
      (encrypt_file_streaming (some [104]) [] 4 none none
        (List.replicate 16 0) (List.replicate 12 0) true true
        ⟨some [CByte.byte 7], none⟩).1.dest = none) :=
  c3_atomic_output.1 (some [104]) [] 4 none none (List.replicate 16 0)
    (List.replicate 12 0) true true ⟨some [CByte.byte 7], none⟩
    (.formatError "Password cannot be empty") rfl rfl

/-- Counterexample for claim C3 as stated: with a file already at the
requested output path and an early error (empty password), the call returns
an error yet the output path still holds a file, so it is not the case that
after every failed invocation there is no file at the requested output
path. -/
theorem c3_counterexample :
    (encrypt_file_streaming (some [104]) [] 4 none none
      (List.replicate 16 0) (List.replicate 12 0) true true
      ⟨some [CByte.byte 7], none⟩).2 =
      .error (.formatError "Password cannot be empty") ∧
    (encrypt_file_streaming (some [104]) [] 4 none none
      (List.replicate 16 0) (List.replicate 12 0) true true
      ⟨some [CByte.byte 7], none⟩).1.dest = some [CByte.byte 7] :=
  ⟨rfl, rfl⟩

/-- Claim C10: with allow-overwrite set and a file at the output path, once
the pipeline succeeds the pre-existing file is removed before the rename is
attempted; if the rename then fails, the operation returns the I/O error
with the destination already removed and not restored. -/
theorem c10_overwrite_not_failure_atomic :
    (∀ (input : Option (List Nat)) (pw : List Nat) (cs : Nat)
      (comp : Option CompressionConfig) (kf : Option (List Nat))
      (salt nonce : List Nat) (fs : FS),
      (encryptCore input pw cs comp kf salt nonce).isOk = true →
      fs.dest.isSome = true →
      encrypt_file_streaming input pw cs comp kf salt nonce true false fs =
        (⟨none, none⟩, .error (.io "rename failed"))) ∧
    (∀ (input : Option (List CByte)) (pw : List Nat)
      (kf : Option (List Nat)) (fs : FS),
      (decryptCore input pw kf).isOk = true →
      fs.dest.isSome = true →
      decrypt_file_streaming input pw kf true false fs =
        (⟨none, none⟩, .error (.io "rename failed"))) := by
  constructor
  · intro input pw cs comp kf salt nonce fs hok hsome
    rw [encrypt_file_streaming]
    cases hc : encryptCore input pw cs comp kf salt nonce with
    | error e => rw [hc] at hok; cases hok
    | ok ct => simp [hsome]
  · intro input pw kf fs hok hsome
    rw [decrypt_file_streaming]
    cases hc : decryptCore input pw kf with
    | error e => rw [hc] at hok; cases hok
    | ok pt => simp [hsome]

/-- Witness for claim C10: concrete successful pipelines (one-byte file,
password 112) with a pre-existing destination and a failing rename. -/
theorem c10_overwrite_not_failure_atomic_witness :
    encrypt_file_streaming (some [104]) [112] 4 none none
      (List.replicate 16 0) (List.replicate 12 0) true false
      ⟨some [CByte.byte 7], none⟩ =
      (⟨none, none⟩, .error (.io "rename failed")) ∧
    decrypt_file_streaming (some (mkV6Container 0 [112])) [112] none true
      false ⟨some [CByte.byte 7], none⟩ =
      (⟨none, none⟩, .error (.io "rename failed")) :=
  ⟨c10_overwrite_not_failure_atomic.1 (some [104]) [112] 4 none none
      (List.replicate 16 0) (List.replicate 12 0)
      ⟨some [CByte.byte 7], none⟩ rfl rfl,
    c10_overwrite_not_failure_atomic.2 (some (mkV6Container 0 [112])) [112]
      none ⟨some [CByte.byte 7], none⟩ rfl rfl⟩

/-! ## Round trip: header parse of a built header -/

/-- Compression algorithm wire round trip. -/
theorem compressionAlgFromU8_toU8 (a : CAlg) :
    compressionAlgFromU8 a.toU8 = .ok a := by
  cases a <;> rfl

/-- The default KDF parameters validate. -/
theorem validate_defaultKdfParams : defaultKdfParams.validate = .ok () := by
  rfl

/-- Length of the u32 encoding. -/
theorem u32le_length (n : Nat) : (u32le n).length = 4 := by
  simp [u32le]

/-- Length of the u64 encoding. -/
theorem u64le_length (n : Nat) : (u64le n).length = 8 := by
  simp [u64le]

/-- Little-endian value of a single byte. -/
theorem leVal_singleton (b : Nat) : leVal [b] = b := by
  simp [leVal]

/-- Recomposition of the four little-endian digits of a u32 value. -/
theorem u32_digits_recompose (n : Nat) (h : n < 4294967296) :
    n % 256 + 256 * (n / 256 % 256 + 256 * (n / 65536 % 256 +
      256 * (n / 16777216 % 256))) = n := by
  omega

/-- Recomposition of the eight little-endian digits of a u64 value. -/
theorem u64_digits_recompose (n : Nat) (h : n < 18446744073709551616) :
    n % 256 + 256 * (n / 256 % 256 + 256 * (n / 65536 % 256 +
      256 * (n / 16777216 % 256 + 256 * (n / 4294967296 % 256 +
      256 * (n / 1099511627776 % 256 + 256 * (n / 281474976710656 % 256 +
      256 * (n / 72057594037927936 % 256))))))) = n := by
  omega

/-- The four u32 digits are all zero exactly when the value is zero. -/
theorem u32_digits_zero (n : Nat) (h : n < 4294967296) :
    (n % 256 = 0 ∧ n / 256 % 256 = 0 ∧ n / 65536 % 256 = 0 ∧
      n / 16777216 % 256 = 0) ↔ n = 0 := by
  omega

/-- Byte values through the composed embedding. -/
theorem map_comp_cByteVal_byte (xs : List Nat) :
    xs.map (cByteVal ∘ CByte.byte) = xs := by
  induction xs with
  | nil => rfl
  | cons x t ih => simp [cByteVal, ih]

/-- Parsing a container that starts with a header built by the encryptor
(default KDF parameters, in-range fields) succeeds and returns exactly the
built fields, leaving the chunk region. -/
theorem parseHeaderC_build (uc uk : Bool) (salt nonceB : List Nat)
    (C total level orig fv : Nat) (alg : CAlg) (body : List CByte)
    (hsalt : salt.length = 16) (hn : nonceB.length = 12)
    (hC1 : 1 ≤ C) (hC2 : C ≤ 16777216) (ht : total ≤ 10000000)
    (horig : orig ≤ total * C) :
    parseHeaderC ((buildHeader (versionFor uc uk) defaultKdfParams salt
        nonceB C total (if uc then some (alg, level, orig) else none)
        (if uk then some fv else none)).map CByte.byte ++ body) =
      .ok (⟨versionFor uc uk, defaultKdfParams, salt, nonceB, C, total,
        (if uc then some alg else none), (if uc then level % 256 else 0),
        (if uc then orig else 0), uk, (if uk then fv else 0)⟩, body) := by
  have hCr : C < 4294967296 := by omega
  have htr : total < 18446744073709551616 := by omega
  have horig2 : orig < 18446744073709551616 :=
    lt_of_le_of_lt horig (lt_of_le_of_lt (Nat.mul_le_mul ht hC2)
      (by norm_num))
  have hnotC : ¬ (C = 0 ∨ C > 16777216) := by omega
  have hnotT : ¬ total > 10000000 := by omega
  have hnotO : ¬ total * C < orig := Nat.not_lt.mpr horig
  cases uc <;> cases uk <;>
    simp [versionFor, buildHeader, parseHeaderC, parseHeaderTail,
      List.map_append, List.append_assoc, readExact,
      readExact_append_of_len, map_cByteVal_byte, cByteVal, leVal, hsalt,
      hn, u32le_length,
      u64le_length, leVal_singleton, leVal_u32le, leVal_u64le, hCr, htr,
      horig2, defaultKdfParams, KdfParamsV.validate, kdfAlgorithmFromU8,
      compressionAlgFromU8_toU8, hnotC, hnotT, hnotO,
      u32_digits_recompose C hCr, u64_digits_recompose total htr,
      u64_digits_recompose orig horig2, u32_digits_zero C hCr,
      map_comp_cByteVal_byte]

/-! ## Round trip: chunk loops -/

/-- An enabled compression configuration uses ZSTD. -/
theorem isEnabled_alg (cfg : CompressionConfig)
    (h : cfg.isEnabled = true) : cfg.algorithm = CAlg.zstd := by
  cases halg : cfg.algorithm with
  | nocomp => rw [CompressionConfig.isEnabled, halg] at h; cases h
  | zstd => rfl

/-- Ciphertext bound without compression. -/
theorem maxCiphertextLen_none (cs : Nat) :
    maxCiphertextLen cs none = cs + 16 := rfl

/-- Ciphertext bound with the no-compression algorithm. -/
theorem maxCiphertextLen_nocomp (cs : Nat) :
    maxCiphertextLen cs (some .nocomp) = cs + 16 := rfl

/-- Ciphertext bound with ZSTD compression. -/
theorem maxCiphertextLen_zstd (cs : Nat) :
    maxCiphertextLen cs (some .zstd) = zstdCompressBound cs + 16 := rfl

/-- Decompression of the symbolic ZSTD frame under the cap. -/
theorem decompress_zstd_frame (d : List Nat) (maxSize : Nat) :
    decompress_with_limit [.zframe d] .zstd maxSize =
      if d.length ≤ maxSize then .ok d
      else .error (.formatError "Decompressed data exceeds expected size") :=
  rfl

/-- Compression with an enabled ZSTD configuration is the symbolic frame. -/
theorem compressP_eq_zstd (cfg : CompressionConfig) (d : List Nat)
    (h : cfg.algorithm = .zstd) : compressP cfg d = [.zframe d] := by
  unfold compressP
  rw [h]

/-- Decrypting the frames produced by the encryptor chunk loop restores the
plaintext slice, chunk by chunk, with the running written counter. -/
theorem decLoop_encLoop (key : KeyV) (hdr bn : List Nat)
    (cfg : CompressionConfig) (P : List Nat) (C maxCt : Nat)
    (hC : 1 ≤ C) (hC2 : C ≤ 16777216)
    (hmax : maxCt = maxCiphertextLen C
      (if cfg.isEnabled then some cfg.algorithm else none)) :
    ∀ (count idx written : Nat) (body : List CByte),
    encLoop key hdr bn cfg cfg.isEnabled P C P.length maxCt count idx =
      .ok body →
    written = min (idx * C) P.length →
    decLoop key hdr bn C (if cfg.isEnabled then some cfg.algorithm else none)
        (if cfg.isEnabled then P.length else 0) maxCt count idx written
        body =
      .ok ((P.drop (idx * C)).take (count * C),
        written + min (count * C) (P.length - idx * C)) := by
  have hmax32 : maxCt < 4294967296 := by
    have hexp : zstdCompressBound C = C + C / 256 + 64 := rfl
    cases hen2 : cfg.isEnabled
    · rw [hmax, hen2]
      simp only [Bool.false_eq_true, if_false, maxCiphertextLen_none]
      omega
    · rw [hmax, hen2]
      simp only [if_true]
      cases halg2 : cfg.algorithm
      · rw [maxCiphertextLen_nocomp]
        omega
      · rw [maxCiphertextLen_zstd]
        omega
  intro count
  induction count with
  | zero =>
    intro idx written body henc hw
    rw [encLoop] at henc
    cases henc
    simp [decLoop]
  | succ count ih =>
    intro idx written body henc hw
    rw [encLoop] at henc
    set S := P.length with hS
    set bytesToRead := min C (S - idx * C) with hbtr
    set chunk := (P.drop (idx * C)).take bytesToRead with hchunk
    set msg := (if cfg.isEnabled then compressP cfg chunk
      else chunk.map PayloadElem.byte) with hmsg
    set nonce := derive_chunk_nonce bn idx with hnonce
    set ct := gcmEncrypt key nonce hdr msg with hct
    by_cases hlen : ct.length > maxCt
    · rw [if_pos hlen] at henc
      cases henc
    · rw [if_neg hlen] at henc
      cases hrec : encLoop key hdr bn cfg cfg.isEnabled P C S maxCt count
          (idx + 1) with
      | error e => rw [hrec] at henc; cases henc
      | ok restbody =>
        rw [hrec] at henc
        cases henc
        have hdrop_len : (P.drop (idx * C)).length = S - idx * C := by
          simp [hS]
        have hchunk_len : chunk.length = bytesToRead := by
          rw [hchunk, List.length_take, hdrop_len]
          omega
        have hchunk_eq : chunk = (P.drop (idx * C)).take C := by
          rw [hchunk, hbtr, ← hdrop_len, take_min_length]
        have hctlen : ct.length = msg.length + 16 := by
          simp [hct, gcmEncrypt, gcmTagBlock]
        have hrec2 := ih (idx + 1) (written + chunk.length) restbody hrec
          (by
            rw [hchunk_len, hbtr, hw]
            have h1 : (idx + 1) * C = idx * C + C := by ring
            omega)
        have harr : written + chunk.length +
            min (count * C) (S - (idx + 1) * C) =
            written + min ((count + 1) * C) (S - idx * C) := by
          have h1 : (idx + 1) * C = idx * C + C := by ring
          have h2 : (count + 1) * C = count * C + C := by ring
          rw [hchunk_len, hbtr, h1, h2]
          omega
        have hlist : chunk ++ (P.drop ((idx + 1) * C)).take (count * C) =
            (P.drop (idx * C)).take ((count + 1) * C) := by
          rw [hchunk_eq, show (idx + 1) * C = idx * C + C by ring,
            ← List.drop_drop, show (count + 1) * C = C + count * C by ring,
            List.take_add]
        rw [decLoop, List.append_assoc,
          readExact_append_of_len (by simp [u32le_length]) _]
        dsimp only
        rw [map_cByteVal_byte, leVal_u32le (by omega), if_neg hlen,
          readExact_append_of_len rfl _]
        dsimp only
        rw [← hnonce, gcmDecrypt_gcmEncrypt]
        dsimp only
        cases hen : cfg.isEnabled with
        | false =>
          rw [hen] at hmsg
          simp only [if_false, Bool.false_eq_true] at hmsg
          simp only [hen, if_false, Bool.false_eq_true, Option.isSome_none]
          have hnotbig : ¬ msg.length > C := by
            rw [hmsg]
            simp only [List.length_map]
            rw [hchunk_len, hbtr]
            omega
          rw [if_neg hnotbig, hmsg, map_payloadByteVal_byte]
          dsimp only
          rw [hen] at hrec2
          simp only [if_false, Bool.false_eq_true] at hrec2
          rw [hrec2]
          dsimp only
          rw [hlist, harr]
        | true =>
          have halg := isEnabled_alg cfg hen
          rw [hen] at hmsg
          simp only [if_true] at hmsg
          rw [compressP_eq_zstd cfg _ halg] at hmsg
          simp only [hen, if_true, Option.isSome_some]
          rw [halg, hmsg, decompress_zstd_frame]
          have hfits : chunk.length ≤ min C (S - written) := by
            rw [hchunk_len, hbtr, hw]
            omega
          rw [if_pos hfits]
          dsimp only
          rw [hen] at hrec2
          simp only [if_true] at hrec2
          rw [halg] at hrec2
          rw [hrec2]
          dsimp only
          rw [hlist, harr]

/-- The chunk count covers the whole file. -/
theorem encTotalChunks_mul_ge (S C : Nat) (hC : 1 ≤ C) :
    S ≤ encTotalChunks S C * C := by
  rw [encTotalChunks]
  by_cases h0 : S = 0
  · subst h0
    simp
  · rw [if_neg h0]
    have hd := Nat.div_add_mod S C
    have hm : S % C < C := Nat.mod_lt _ (by omega)
    generalize hq : S / C = q at hd ⊢
    generalize hr0 : S % C = r at hd hm ⊢
    by_cases hr : r ≠ 0
    · rw [if_pos hr]
      have hexp : (q + 1) * C = C * q + C := by ring
      omega
    · rw [if_neg hr]
      have hexp : (q + 0) * C = C * q := by ring
      omega

/-- For a non-empty file the chunk count is the ceiling of size over chunk
size. -/
theorem encTotalChunks_ceil (S C : Nat) (hS : S ≠ 0) (hC : 1 ≤ C) :
    encTotalChunks S C = (S + C - 1) / C := by
  have hd := Nat.div_add_mod S C
  have hm : S % C < C := Nat.mod_lt _ (by omega)
  rw [encTotalChunks, if_neg hS]
  generalize hq : S / C = q at hd ⊢
  generalize hr0 : S % C = r at hd hm ⊢
  by_cases hr : r ≠ 0
  · rw [if_pos hr]
    have hexp : C * (q + 1) = C * q + C := by ring
    have heq : S + C - 1 = C * (q + 1) + (r - 1) := by omega
    rw [heq, Nat.mul_add_div (by omega), Nat.div_eq_of_lt (by omega)]
  · rw [if_neg hr]
    have heq : S + C - 1 = C * q + (C - 1) := by omega
    rw [heq, Nat.mul_add_div (by omega), Nat.div_eq_of_lt (by omega)]

/-- Key derivation with the default parameters and a 16-byte salt yields
the ideal key. -/
theorem derive_default (m salt : List Nat) (h : salt.length = 16) :
    derive_key_with_material m salt defaultKdfParams =
      .ok ⟨m, salt, defaultKdfParams⟩ := by
  simp [derive_key_with_material, KdfParamsV.validate, h, defaultKdfParams,
    Bind.bind, Except.bind]

/-- The level byte written to the header only depends on the level modulo
256, so rebuilding the header from the parsed level byte reproduces it. -/
theorem buildHeader_level_mod (v : Nat) (p : KdfParamsV)
    (s n : List Nat) (cs t : Nat) (a : CAlg) (l o : Nat)
    (f : Option Nat) :
    buildHeader v p s n cs t (some (a, l % 256, o)) f =
      buildHeader v p s n cs t (some (a, l, o)) f := by
  simp [buildHeader, Nat.mod_mod_of_dvd]

/-! ## Claim C1: round trip -/

/-- Decrypting the output of the streaming encryptor with the same password
and key-file choice restores the plaintext (shared round-trip lemma). -/
theorem roundTrip_core (P pw : List Nat) (C0 : Nat)
    (comp : Option CompressionConfig) (kf : Option (List Nat))
    (salt nonce : List Nat) (ct : List CByte)
    (hpw : pw ≠ []) (hC1 : 1 ≤ C0) (hC2 : C0 ≤ 16777216)
    (hsalt : salt.length = 16) (hn : nonce.length = 12)
    (henc : encryptCore (some P) pw C0 comp kf salt nonce = .ok ct) :
    decryptCore (some ct) pw kf = .ok P := by
  have h00 : ¬ C0 = 0 := by omega
  have h16 : ¬ C0 > 16777216 := by omega
  rw [encryptCore, if_neg hpw] at henc
  simp only [h00, if_false, h16, Bool.false_eq_true] at henc
  cases kf with
  | none =>
    have hkey : derive_key_with_params pw salt defaultKdfParams =
        .ok ⟨pw, salt, defaultKdfParams⟩ := by
      rw [derive_key_with_params]
      exact derive_default pw salt hsalt
    simp only [hkey, Bind.bind, Except.bind] at henc
    by_cases htot : encTotalChunks P.length C0 > 10000000
    · rw [if_pos htot] at henc
      simp at henc
    · rw [if_neg htot] at henc
      simp only [Option.isSome_none, Bool.false_eq_true, if_false] at henc
      cases hloop : encLoop ⟨pw, salt, defaultKdfParams⟩
          (buildHeader (versionFor (comp.getD CompressionConfig.noneCfg).isEnabled
            false) defaultKdfParams salt nonce C0
            (encTotalChunks P.length C0)
            (if (comp.getD CompressionConfig.noneCfg).isEnabled then
              some ((comp.getD CompressionConfig.noneCfg).algorithm,
                (comp.getD CompressionConfig.noneCfg).level, P.length)
             else none) none)
          nonce (comp.getD CompressionConfig.noneCfg)
          (comp.getD CompressionConfig.noneCfg).isEnabled P C0 P.length
          (maxCiphertextLen C0
            (if (comp.getD CompressionConfig.noneCfg).isEnabled then
              some (comp.getD CompressionConfig.noneCfg).algorithm
             else none))
          (encTotalChunks P.length C0) 0 with
      | error e =>
        rw [hloop] at henc
        simp at henc
      | ok body =>
        rw [hloop] at henc
        simp only [Except.bind] at henc
        set cfg := comp.getD CompressionConfig.noneCfg with hcfg
        set S := P.length with hS
        set total := encTotalChunks S C0 with htotal
        set hdrEnc := buildHeader (versionFor cfg.isEnabled false)
          defaultKdfParams salt nonce C0 total
          (if cfg.isEnabled then some (cfg.algorithm, cfg.level, S)
           else none) none with hhdrEnc
        injection henc with henc2
        subst henc2
        have hparse := parseHeaderC_build cfg.isEnabled false salt nonce C0
          total cfg.level S 1 cfg.algorithm body hsalt hn hC1 hC2
          (by omega) (encTotalChunks_mul_ge S C0 hC1)
        simp only [Bool.false_eq_true, if_false] at hparse
        rw [decryptCore, if_neg hpw]
        rw [hparse]
        simp only [Nat.and_one_is_mod]
        have hflag : ((0 : Nat) % 2 != 0) = false := by decide
        rw [hflag]
        simp only [Bool.false_and, Bool.false_eq_true, if_false]
        have hkey2 : derive_key_with_params pw salt defaultKdfParams =
            .ok ⟨pw, salt, defaultKdfParams⟩ := hkey
        simp only [hkey2]
        have hrebuild : buildHeader (versionFor cfg.isEnabled false)
            defaultKdfParams salt nonce C0 total
            ((if cfg.isEnabled then some cfg.algorithm else none).map
              fun a => (a, (if cfg.isEnabled then cfg.level % 256 else 0),
                (if cfg.isEnabled then S else 0)))
            (if false then some (if false then 1 else 0) else none) =
            hdrEnc := by
          rw [hhdrEnc]
          cases hen : cfg.isEnabled
          · simp [hen]
          · simp only [hen, if_true]
            exact buildHeader_level_mod _ _ _ _ _ _ _ _ _ _
        have hdec := decLoop_encLoop ⟨pw, salt, defaultKdfParams⟩ hdrEnc
          nonce cfg P C0
          (maxCiphertextLen C0
            (if cfg.isEnabled then some cfg.algorithm else none))
          hC1 hC2 rfl total 0 0 body hloop (by simp)
        simp only [Nat.zero_mul, List.drop_zero, Nat.zero_add] at hdec
        rw [← hS] at hdec
        rw [show (if false then some (if false then (1:Nat) else 0)
          else none) = (none : Option Nat) from rfl] at hrebuild
        rw [hrebuild, hdec]
        have htake : P.take (total * C0) = P :=
          List.take_of_length_le (encTotalChunks_mul_ge S C0 hC1)
        have hmin : min (total * C0) (S - 0) = S := by
          have h := encTotalChunks_mul_ge S C0 hC1
          rw [htotal]
          omega
        rw [htake, hmin]
        cases hen2 : cfg.isEnabled <;> simp [hen2]
  | some kfc =>
    cases hhash : hash_key_file kfc with
    | error e =>
      simp only [hhash, Bind.bind, Except.bind] at henc
      simp at henc
    | ok hv =>
      have hkey : derive_key_with_material
          (combine_password_and_keyfile pw hv) salt defaultKdfParams =
          .ok ⟨pw ++ hv, salt, defaultKdfParams⟩ := by
        rw [combine_password_and_keyfile]
        exact derive_default (pw ++ hv) salt hsalt
      simp only [hhash, hkey, Bind.bind, Except.bind] at henc
      by_cases htot : encTotalChunks P.length C0 > 10000000
      · rw [if_pos htot] at henc
        simp at henc
      · rw [if_neg htot] at henc
        simp only [Option.isSome_some, if_true] at henc
        cases hloop : encLoop ⟨pw ++ hv, salt, defaultKdfParams⟩
            (buildHeader (versionFor
              (comp.getD CompressionConfig.noneCfg).isEnabled true)
              defaultKdfParams salt nonce C0
              (encTotalChunks P.length C0)
              (if (comp.getD CompressionConfig.noneCfg).isEnabled then
                some ((comp.getD CompressionConfig.noneCfg).algorithm,
                  (comp.getD CompressionConfig.noneCfg).level, P.length)
               else none) (some 1))
            nonce (comp.getD CompressionConfig.noneCfg)
            (comp.getD CompressionConfig.noneCfg).isEnabled P C0 P.length
            (maxCiphertextLen C0
              (if (comp.getD CompressionConfig.noneCfg).isEnabled then
                some (comp.getD CompressionConfig.noneCfg).algorithm
               else none))
            (encTotalChunks P.length C0) 0 with
        | error e =>
          rw [hloop] at henc
          simp at henc
        | ok body =>
          rw [hloop] at henc
          simp only [Except.bind] at henc
          set cfg := comp.getD CompressionConfig.noneCfg with hcfg
          set S := P.length with hS
          set total := encTotalChunks S C0 with htotal
          set hdrEnc := buildHeader (versionFor cfg.isEnabled true)
            defaultKdfParams salt nonce C0 total
            (if cfg.isEnabled then some (cfg.algorithm, cfg.level, S)
             else none) (some 1) with hhdrEnc
          injection henc with henc2
          subst henc2
          have hparse := parseHeaderC_build cfg.isEnabled true salt nonce
            C0 total cfg.level S 1 cfg.algorithm body hsalt hn hC1 hC2
            (by omega) (encTotalChunks_mul_ge S C0 hC1)
          simp only [if_true] at hparse
          rw [decryptCore, if_neg hpw]
          rw [hparse]
          simp only [Nat.and_one_is_mod]
          have hflag : ((1 : Nat) % 2 != 0) = true := by decide
          rw [hflag]
          simp only [Bool.true_and, Option.isNone_some, Bool.false_eq_true,
            if_false]
          simp only [hhash, Bind.bind, Except.bind]
          have hkey2 : derive_key_with_material
              (combine_password_and_keyfile pw hv) salt defaultKdfParams =
              .ok ⟨pw ++ hv, salt, defaultKdfParams⟩ := hkey
          simp only [hkey2]
          have hrebuild : buildHeader (versionFor cfg.isEnabled true)
              defaultKdfParams salt nonce C0 total
              ((if cfg.isEnabled then some cfg.algorithm else none).map
                fun a => (a, (if cfg.isEnabled then cfg.level % 256 else 0),
                  (if cfg.isEnabled then S else 0)))
              (some 1) =
              hdrEnc := by
            rw [hhdrEnc]
            cases hen : cfg.isEnabled
            · simp [hen]
            · simp only [hen, if_true]
              exact buildHeader_level_mod _ _ _ _ _ _ _ _ _ _
          have hdec := decLoop_encLoop ⟨pw ++ hv, salt, defaultKdfParams⟩
            hdrEnc nonce cfg P C0
            (maxCiphertextLen C0
              (if cfg.isEnabled then some cfg.algorithm else none))
            hC1 hC2 rfl total 0 0 body hloop (by simp)
          simp only [Nat.zero_mul, List.drop_zero, Nat.zero_add] at hdec
          rw [← hS] at hdec
          simp only [if_true]
          rw [hrebuild, hdec]
          have htake : P.take (total * C0) = P :=
            List.take_of_length_le (encTotalChunks_mul_ge S C0 hC1)
          have hmin : min (total * C0) (S - 0) = S := by
            have h := encTotalChunks_mul_ge S C0 hC1
            rw [htotal]
            omega
          rw [htake, hmin]
          cases hen2 : cfg.isEnabled <;> simp [hen2]

/-- Claim C1: decrypting the output of the streaming encryptor with the
same password and key-file choice restores exactly the plaintext, for every
plaintext, non-empty password, chunk size in range, compression choice and
key-file choice (salt and base nonce are the encryptor-generated values,
with their generated lengths). -/
theorem c1_round_trip (P pw : List Nat) (C0 : Nat)
    (comp : Option CompressionConfig) (kf : Option (List Nat))
    (salt nonce : List Nat) (ct : List CByte)
    (hpw : pw ≠ []) (hC1 : 1 ≤ C0) (hC2 : C0 ≤ 16777216)
    (hsalt : salt.length = 16) (hn : nonce.length = 12)
    (henc : encryptCore (some P) pw C0 comp kf salt nonce = .ok ct) :
    decryptCore (some ct) pw kf = .ok P :=
  roundTrip_core P pw C0 comp kf salt nonce ct hpw hC1 hC2 hsalt hn henc

/-- Witness for claim C1 at a concrete run: encrypting 1,2,3 under password
byte 104 with chunk size 4 and decrypting the produced container restores
the plaintext. -/
theorem c1_round_trip_witness :
    decryptCore (some ctSample) [104] none = .ok [1, 2, 3] :=
  c1_round_trip [1, 2, 3] [104] 4 none none (List.replicate 16 7)
    (List.replicate 12 9) ctSample (by decide) (by decide) (by decide)
    (by decide) (by decide) rfl

/-! ## Claim C5: empty-file chunking -/

/-- The ideal AEAD tag check: decryption under a different key fails. -/
theorem gcmDecrypt_wrong_key (key key' : KeyV) (nonce aad : List Nat)
    (msg : List PayloadElem) (hne : key' ≠ key) :
    gcmDecrypt key' nonce aad (gcmEncrypt key nonce aad msg) = none := by
  have hlen : (gcmEncrypt key nonce aad msg).length = msg.length + 16 := by
    simp [gcmEncrypt, gcmTagBlock]
  have hsub : (gcmEncrypt key nonce aad msg).length - 16 = msg.length := by
    omega
  have htake : (gcmEncrypt key nonce aad msg).take msg.length =
      msg.map payloadToC := by
    have h : msg.length = (msg.map payloadToC).length := by simp
    rw [gcmEncrypt, h, List.take_left]
  have hdrop : (gcmEncrypt key nonce aad msg).drop msg.length =
      gcmTagBlock key nonce aad msg := by
    have h : msg.length = (msg.map payloadToC).length := by simp
    rw [gcmEncrypt, h, List.drop_left]
  have hne2 : ¬ (gcmTagBlock key nonce aad msg =
      gcmTagBlock key' nonce aad msg) := by
    rw [gcmTagBlock, gcmTagBlock]
    intro h
    injection h with h1 h2
    injection h1 with hk hn2 ha hm
    exact hne hk.symm
  rw [gcmDecrypt, if_neg (by omega), hsub, htake, hdrop, allPayload_map]
  simp [hne2]

/-- The encryption chunk loop on an empty input with one chunk: a single
frame whose payload is empty and whose ciphertext is the bare 16-byte
tag block. -/
theorem encLoop_nil (key : KeyV) (hdr bn : List Nat) (C0 : Nat) :
    encLoop key hdr bn CompressionConfig.noneCfg false [] C0 0 (C0 + 16)
        1 0 =
      .ok ((u32le 16).map CByte.byte ++
        gcmEncrypt key (derive_chunk_nonce bn 0) hdr []) := by
  have hl : (gcmEncrypt key (derive_chunk_nonce bn 0) hdr []).length = 16 :=
    rfl
  have hif : ¬ ((16:Nat) > C0 + 16) := by omega
  simp [encLoop, hl, hif]

/-- Encrypting the empty input: a V4 container with total chunk count 1 and
a single frame holding only the 16-byte tag. -/
theorem encryptCore_empty (pw : List Nat) (C0 : Nat) (salt nonce : List Nat)
    (hpw : pw ≠ []) (hC1 : 1 ≤ C0) (hC2 : C0 ≤ 16777216)
    (hsalt : salt.length = 16) :
    encryptCore (some []) pw C0 none none salt nonce =
      .ok ((buildHeader 4 defaultKdfParams salt nonce C0 1 none
          none).map CByte.byte ++
        ((u32le 16).map CByte.byte ++
          gcmEncrypt ⟨pw, salt, defaultKdfParams⟩
            (derive_chunk_nonce nonce 0)
            (buildHeader 4 defaultKdfParams salt nonce C0 1 none none)
            [])) := by
  have h00 : ¬ C0 = 0 := by omega
  have h16 : ¬ C0 > 16777216 := by omega
  have hkey : derive_key_with_params pw salt defaultKdfParams =
      .ok ⟨pw, salt, defaultKdfParams⟩ := by
    rw [derive_key_with_params]
    exact derive_default pw salt hsalt
  have htc : encTotalChunks 0 C0 = 1 := by simp [encTotalChunks]
  rw [encryptCore, if_neg hpw]
  simp only [h00, if_false, h16, Bool.false_eq_true, List.length_nil]
  simp only [hkey, Bind.bind, Except.bind]
  rw [htc, if_neg (show ¬ ((1:Nat) > 10000000) from by decide)]
  simp only [Option.isSome_none, Option.getD_none,
    show CompressionConfig.noneCfg.isEnabled = false from rfl,
    Bool.false_eq_true, if_false,
    show versionFor false false = 4 from rfl]
  rw [maxCiphertextLen_none, encLoop_nil]

/-- Decrypting the empty-input container with a different non-empty
password fails the AEAD tag check and returns InvalidPassword. -/
theorem decrypt_empty_wrongpw (pw pw' : List Nat) (C0 : Nat)
    (salt nonce : List Nat) (hpw' : pw' ≠ []) (hne : pw' ≠ pw)
    (hC1 : 1 ≤ C0) (hC2 : C0 ≤ 16777216)
    (hsalt : salt.length = 16) (hn : nonce.length = 12) :
    decryptCore (some ((buildHeader 4 defaultKdfParams salt nonce C0 1 none
          none).map CByte.byte ++
        ((u32le 16).map CByte.byte ++
          gcmEncrypt ⟨pw, salt, defaultKdfParams⟩
            (derive_chunk_nonce nonce 0)
            (buildHeader 4 defaultKdfParams salt nonce C0 1 none none) [])))
      pw' none = .error .invalidPassword := by
  have hkey' : derive_key_with_params pw' salt defaultKdfParams =
      .ok ⟨pw', salt, defaultKdfParams⟩ := by
    rw [derive_key_with_params]
    exact derive_default pw' salt hsalt
  have hparse := parseHeaderC_build false false salt nonce C0 1 0 0 0 .zstd
    ((u32le 16).map CByte.byte ++
      gcmEncrypt ⟨pw, salt, defaultKdfParams⟩ (derive_chunk_nonce nonce 0)
        (buildHeader 4 defaultKdfParams salt nonce C0 1 none none) [])
    hsalt hn hC1 hC2 (by omega) (by omega)
  simp only [Bool.false_eq_true, if_false,
    show versionFor false false = 4 from rfl] at hparse
  have hdec : decLoop (⟨pw', salt, defaultKdfParams⟩ : KeyV)
      (buildHeader 4 defaultKdfParams salt nonce C0 1 none none) nonce C0
      none 0 (maxCiphertextLen C0 none) 1 0 0
      ((u32le 16).map CByte.byte ++
        gcmEncrypt ⟨pw, salt, defaultKdfParams⟩ (derive_chunk_nonce nonce 0)
          (buildHeader 4 defaultKdfParams salt nonce C0 1 none none) []) =
      .error .invalidPassword := by
    have hlen4 : ((u32le 16).map CByte.byte).length = 4 := rfl
    have hmax : ¬ ((16:Nat) > maxCiphertextLen C0 none) := by
      rw [maxCiphertextLen_none]
      omega
    have hkey_ne : (⟨pw', salt, defaultKdfParams⟩ : KeyV) ≠
        ⟨pw, salt, defaultKdfParams⟩ := by
      intro h
      injection h with h1 h2 h3
      exact hne h1
    have hgd := gcmDecrypt_wrong_key ⟨pw, salt, defaultKdfParams⟩
      ⟨pw', salt, defaultKdfParams⟩ (derive_chunk_nonce nonce 0)
      (buildHeader 4 defaultKdfParams salt nonce C0 1 none none) [] hkey_ne
    rw [decLoop]
    rw [readExact_append_of_len hlen4]
    dsimp only
    rw [show leVal (((u32le 16).map CByte.byte).map cByteVal) = 16 from rfl]
    rw [if_neg hmax]
    rw [← List.append_nil (gcmEncrypt
      (⟨pw, salt, defaultKdfParams⟩ : KeyV) (derive_chunk_nonce nonce 0)
      (buildHeader 4 defaultKdfParams salt nonce C0 1 none none) [])]
    rw [readExact_append_of_len (show (gcmEncrypt
      (⟨pw, salt, defaultKdfParams⟩ : KeyV) (derive_chunk_nonce nonce 0)
      (buildHeader 4 defaultKdfParams salt nonce C0 1 none none) []).length =
      16 from rfl)]
    dsimp only
    rw [hgd]
  rw [decryptCore, if_neg hpw']
  rw [hparse]
  simp only [Nat.and_one_is_mod]
  rw [show ((0 : Nat) % 2 != 0) = false from by decide]
  simp only [Bool.false_and, Bool.false_eq_true, if_false, Option.map]
  simp only [hkey']
  rw [hdec]

/-- Claim C5: for input size 0 the encryptor sets the total chunk count to
exactly 1 and emits one chunk with a 0-byte payload and a 16-byte tag (for
non-zero sizes the count is the ceiling of size over chunk size);
decrypting the container with the correct password returns the empty byte
string and decrypting with any other non-empty password fails with
InvalidPassword. -/
theorem c5_empty_file_chunking (pw : List Nat) (C0 : Nat)
    (salt nonce : List Nat) (hpw : pw ≠ []) (hC1 : 1 ≤ C0)
    (hC2 : C0 ≤ 16777216) (hsalt : salt.length = 16)
    (hn : nonce.length = 12) :
    encTotalChunks 0 C0 = 1 ∧
    (∀ s, s ≠ 0 → encTotalChunks s C0 = (s + C0 - 1) / C0) ∧
    encryptCore (some []) pw C0 none none salt nonce =
      .ok ((buildHeader 4 defaultKdfParams salt nonce C0 1 none
          none).map CByte.byte ++
        ((u32le 16).map CByte.byte ++
          gcmEncrypt ⟨pw, salt, defaultKdfParams⟩
            (derive_chunk_nonce nonce 0)
            (buildHeader 4 defaultKdfParams salt nonce C0 1 none none)
            [])) ∧
    (gcmEncrypt ⟨pw, salt, defaultKdfParams⟩ (derive_chunk_nonce nonce 0)
        (buildHeader 4 defaultKdfParams salt nonce C0 1 none none)
        []).length = 16 ∧
    (∀ ct, encryptCore (some []) pw C0 none none salt nonce = .ok ct →
      decryptCore (some ct) pw none = .ok []) ∧
    (∀ pw', pw' ≠ [] → pw' ≠ pw →
      ∀ ct, encryptCore (some []) pw C0 none none salt nonce = .ok ct →
        decryptCore (some ct) pw' none = .error .invalidPassword) := by
  refine ⟨by simp [encTotalChunks],
    fun s hs => encTotalChunks_ceil s C0 hs hC1,
    encryptCore_empty pw C0 salt nonce hpw hC1 hC2 hsalt, rfl,
    fun ct hct => roundTrip_core [] pw C0 none none salt nonce ct
      hpw hC1 hC2 hsalt hn hct,
    fun pw' hpw' hne ct hct => ?_⟩
  rw [encryptCore_empty pw C0 salt nonce hpw hC1 hC2 hsalt] at hct
  injection hct with h
  subst h
  exact decrypt_empty_wrongpw pw pw' C0 salt nonce hpw' hne hC1 hC2 hsalt hn

/-- Witness for claim C5 at password byte 104, chunk size 4, all-7 salt and
all-9 base nonce. -/
theorem c5_empty_file_chunking_witness :
    encTotalChunks 0 4 = 1 ∧
    (∀ s, s ≠ 0 → encTotalChunks s 4 = (s + 4 - 1) / 4) ∧
    encryptCore (some []) [104] 4 none none (List.replicate 16 7)
        (List.replicate 12 9) =
      .ok ((buildHeader 4 defaultKdfParams (List.replicate 16 7)
          (List.replicate 12 9) 4 1 none none).map CByte.byte ++
        ((u32le 16).map CByte.byte ++
          gcmEncrypt ⟨[104], List.replicate 16 7, defaultKdfParams⟩
            (derive_chunk_nonce (List.replicate 12 9) 0)
            (buildHeader 4 defaultKdfParams (List.replicate 16 7)
              (List.replicate 12 9) 4 1 none none) [])) ∧
    (gcmEncrypt ⟨[104], List.replicate 16 7, defaultKdfParams⟩
        (derive_chunk_nonce (List.replicate 12 9) 0)
        (buildHeader 4 defaultKdfParams (List.replicate 16 7)
          (List.replicate 12 9) 4 1 none none) []).length = 16 ∧
    (∀ ct, encryptCore (some []) [104] 4 none none (List.replicate 16 7)
        (List.replicate 12 9) = .ok ct →
      decryptCore (some ct) [104] none = .ok []) ∧
    (∀ pw', pw' ≠ [] → pw' ≠ [104] →
      ∀ ct, encryptCore (some []) [104] 4 none none (List.replicate 16 7)
          (List.replicate 12 9) = .ok ct →
        decryptCore (some ct) pw' none = .error .invalidPassword) :=
  c5_empty_file_chunking [104] 4 (List.replicate 16 7)
    (List.replicate 12 9) (by decide) (by decide) (by decide) (by decide)
    (by decide)

/-! ## Claim C8: reserved flag bits -/

/-- The single-frame body of the hand-crafted V6 container splits as a
length prefix and the AEAD output. -/
theorem mkV6Container_split (f : Nat) (pw : List Nat) :
    mkV6Container f pw =
      (buildHeader 6 defaultKdfParams (List.replicate 16 0)
          (List.replicate 12 0) 1 1 none (some f)).map CByte.byte ++
        ((u32le 17).map CByte.byte ++
          gcmEncrypt ⟨pw, List.replicate 16 0, defaultKdfParams⟩
            (derive_chunk_nonce (List.replicate 12 0) 0)
            (buildHeader 6 defaultKdfParams (List.replicate 16 0)
              (List.replicate 12 0) 1 1 none (some f)) [.byte 97]) := by
  have hct : (gcmEncrypt (⟨pw, List.replicate 16 0, defaultKdfParams⟩ :
      KeyV) (derive_chunk_nonce (List.replicate 12 0) 0) (mkV6Header f)
      [.byte 97]).length = 17 := rfl
  rw [mkV6Container]
  simp only [List.append_assoc, hct]
  rw [mkV6Header]

/-- One pass of the decryption loop over the hand-crafted V6 frame with the
matching key: the single byte 97 is recovered. -/
theorem decLoop_mkV6 (f : Nat) (pw : List Nat) :
    decLoop (⟨pw, List.replicate 16 0, defaultKdfParams⟩ : KeyV)
      (buildHeader 6 defaultKdfParams (List.replicate 16 0)
        (List.replicate 12 0) 1 1 none (some f))
      (List.replicate 12 0) 1 none 0 (maxCiphertextLen 1 none) 1 0 0
      ((u32le 17).map CByte.byte ++
        gcmEncrypt ⟨pw, List.replicate 16 0, defaultKdfParams⟩
          (derive_chunk_nonce (List.replicate 12 0) 0)
          (buildHeader 6 defaultKdfParams (List.replicate 16 0)
            (List.replicate 12 0) 1 1 none (some f)) [.byte 97]) =
      .ok ([97], 1) := by
  have hlen4 : ((u32le 17).map CByte.byte).length = 4 := rfl
  have hmax : ¬ ((17:Nat) > maxCiphertextLen 1 none) := by decide
  have hgd := gcmDecrypt_gcmEncrypt
    ⟨pw, List.replicate 16 0, defaultKdfParams⟩
    (derive_chunk_nonce (List.replicate 12 0) 0)
    (buildHeader 6 defaultKdfParams (List.replicate 16 0)
      (List.replicate 12 0) 1 1 none (some f)) [.byte 97]
  rw [decLoop]
  rw [readExact_append_of_len hlen4]
  dsimp only
  rw [show leVal (((u32le 17).map CByte.byte).map cByteVal) = 17 from rfl]
  rw [if_neg hmax]
  rw [← List.append_nil (gcmEncrypt
    (⟨pw, List.replicate 16 0, defaultKdfParams⟩ : KeyV)
    (derive_chunk_nonce (List.replicate 12 0) 0)
    (buildHeader 6 defaultKdfParams (List.replicate 16 0)
      (List.replicate 12 0) 1 1 none (some f)) [.byte 97])]
  rw [readExact_append_of_len (show (gcmEncrypt
    (⟨pw, List.replicate 16 0, defaultKdfParams⟩ : KeyV)
    (derive_chunk_nonce (List.replicate 12 0) 0)
    (buildHeader 6 defaultKdfParams (List.replicate 16 0)
      (List.replicate 12 0) 1 1 none (some f)) [.byte 97]).length = 17
    from rfl)]
  dsimp only
  rw [hgd]
  dsimp only
  simp [decLoop, payloadByteVal]

/-- Counterexample to claim C8 as stated: a V6 container whose flags byte
is 2 (a reserved bit set, bit 0 clear) is not rejected by the decryptor's
header parse — decryption succeeds and returns the plaintext. -/
theorem c8_counterexample :
    decryptCore (some (mkV6Container 2 [112])) [112] none = .ok [97] := rfl

/-- Claim C8 (amended): in a V6 container only bit 0 of the flags byte is
interpreted — if bit 0 is clear the container decrypts under the password
alone whatever the reserved bits hold, and if bit 0 is set decryption
without a key file fails with KeyFileRequired; reserved bits are accepted
by the parse, not rejected. -/
theorem c8_reserved_flag_bits (f : Nat) (pw : List Nat)
    (hf : f < 256) (hpw : pw ≠ []) :
    (f &&& 1 = 0 →
      decryptCore (some (mkV6Container f pw)) pw none = .ok [97]) ∧
    (f &&& 1 ≠ 0 →
      decryptCore (some (mkV6Container f pw)) pw none =
        .error .keyFileRequired) := by
  have hparse := parseHeaderC_build false true (List.replicate 16 0)
    (List.replicate 12 0) 1 1 0 0 f .zstd
    ((u32le 17).map CByte.byte ++
      gcmEncrypt ⟨pw, List.replicate 16 0, defaultKdfParams⟩
        (derive_chunk_nonce (List.replicate 12 0) 0)
        (buildHeader 6 defaultKdfParams (List.replicate 16 0)
          (List.replicate 12 0) 1 1 none (some f)) [.byte 97])
    (by decide) (by decide) (by decide) (by decide) (by decide) (by decide)
  simp only [Bool.false_eq_true, if_false, if_true,
    show versionFor false true = 6 from rfl] at hparse
  have hkey : derive_key_with_params pw (List.replicate 16 0)
      defaultKdfParams =
      .ok ⟨pw, List.replicate 16 0, defaultKdfParams⟩ := by
    rw [derive_key_with_params]
    exact derive_default pw (List.replicate 16 0) (by decide)
  refine ⟨fun h0 => ?_, fun h1 => ?_⟩
  · rw [Nat.and_one_is_mod] at h0
    rw [decryptCore, if_neg hpw, mkV6Container_split, hparse]
    simp only [Nat.and_one_is_mod]
    rw [h0, show ((0:Nat) != 0) = false from by decide]
    simp only [Bool.false_and, Bool.false_eq_true, if_false, Option.map,
      eq_self_iff_true, if_true]
    simp only [hkey]
    rw [decLoop_mkV6]
    simp
  · rw [Nat.and_one_is_mod] at h1
    rw [decryptCore, if_neg hpw, mkV6Container_split, hparse]
    simp only [Nat.and_one_is_mod]
    rw [show (f % 2 != 0) = true from by
      rw [show f % 2 = 1 from by omega]
      rfl]
    simp only [Bool.true_and, Option.isNone_none, if_true]

/-- Witness for the amended claim C8 at flags byte 2 and password byte
112: bit 0 is clear, so the container decrypts despite the reserved bit. -/
theorem c8_reserved_flag_bits_witness :
    (2 &&& 1 = 0 →
      decryptCore (some (mkV6Container 2 [112])) [112] none = .ok [97]) ∧
    (2 &&& 1 ≠ 0 →
      decryptCore (some (mkV6Container 2 [112])) [112] none =
        .error .keyFileRequired) :=
  c8_reserved_flag_bits 2 [112] (by decide) (by decide)

/-! ## Claim C2: error taxonomy -/

/-- Unknown-KDF-algorithm errors are structural. -/
theorem kdfAlgorithmFromU8_err (v : Nat) (e : CryptoError)
    (h : kdfAlgorithmFromU8 v = .error e) : errOutcome e = .structural := by
  rw [kdfAlgorithmFromU8] at h
  split_ifs at h <;>
    first
    | exact (Except.noConfusion h)
    | (injection h with h1; cases h1; rfl)

/-- Unknown-compression-algorithm errors are structural. -/
theorem compressionAlgFromU8_err (v : Nat) (e : CryptoError)
    (h : compressionAlgFromU8 v = .error e) : errOutcome e = .structural := by
  rw [compressionAlgFromU8] at h
  split_ifs at h <;>
    first
    | exact (Except.noConfusion h)
    | (injection h with h1; cases h1; rfl)

/-- KDF-parameter validation errors are structural. -/
theorem validate_err (p : KdfParamsV) (e : CryptoError)
    (h : p.validate = .error e) : errOutcome e = .structural := by
  rw [KdfParamsV.validate] at h
  split_ifs at h <;>
    first
    | exact (Except.noConfusion h)
    | (injection h with h1; cases h1; rfl)

/-- Decompression errors are structural. -/
theorem decompress_err (body : List PayloadElem) (alg : CAlg) (m : Nat)
    (e : CryptoError) (h : decompress_with_limit body alg m = .error e) :
    errOutcome e = .structural := by
  cases alg with
  | nocomp =>
    simp only [decompress_with_limit] at h
    split_ifs at h <;>
      first
      | exact (Except.noConfusion h)
      | (injection h with h1; cases h1; rfl)
  | zstd =>
    simp only [decompress_with_limit] at h
    split at h <;>
      try split_ifs at h
    all_goals
      first
      | exact (Except.noConfusion h)
      | (injection h with h1; cases h1; rfl)

/-- The spec-side header tail agrees with the code's parse tail up to the
taxonomy classification of errors. -/
theorem specHeaderTail_eq (hasComp hasFlags : Bool) (version : Nat)
    (params : KdfParamsV) (saltB nonceB : List CByte)
    (chunkSize totalChunks : Nat) (rest : List CByte) :
    specHeaderTail hasComp hasFlags version params saltB nonceB chunkSize
        totalChunks rest =
      mapErr (parseHeaderTail hasComp hasFlags version params saltB nonceB
        chunkSize totalChunks rest) := by
  rw [specHeaderTail, parseHeaderTail]
  cases hasComp with
  | false =>
    cases hasFlags with
    | false => simp [mapErr]
    | true =>
      cases h6 : readExact 1 rest with
      | none => simp [h6, mapErr, errOutcome]
      | some v6 =>
        obtain ⟨fB, r13⟩ := v6
        simp [h6, mapErr]
  | true =>
    cases h1 : readExact 1 rest with
    | none => simp [h1, mapErr, errOutcome]
    | some v1 =>
      obtain ⟨calgB, s0⟩ := v1
      simp only [h1]
      cases h2 : compressionAlgFromU8 (leVal (calgB.map cByteVal)) with
      | error e =>
        simp [h2, mapErr, compressionAlgFromU8_err _ _ h2]
      | ok alg =>
        simp only [h2]
        cases h3 : readExact 1 s0 with
        | none => simp [h3, mapErr, errOutcome]
        | some v3 =>
          obtain ⟨lvlB, s1⟩ := v3
          simp only [h3]
          cases h4 : readExact 8 s1 with
          | none => simp [h4, mapErr, errOutcome]
          | some v4 =>
            obtain ⟨osB, s2⟩ := v4
            simp only [h4]
            by_cases h5 : totalChunks * chunkSize <
                leVal (osB.map cByteVal)
            · simp [h5, mapErr, errOutcome]
            · cases hasFlags with
              | false => simp [h5, mapErr]
              | true =>
                cases h6 : readExact 1 s2 with
                | none => simp [h5, h6, mapErr, errOutcome]
                | some v6 =>
                  obtain ⟨fB, r13⟩ := v6
                  simp [h5, h6, mapErr]

/-- The spec-side header validation agrees with the code's header parse up
to the taxonomy classification of errors. -/
theorem specHeaderOutcome_eq (data : List CByte) :
    specHeaderOutcome data = mapErr (parseHeaderC data) := by
  rw [specHeaderOutcome, parseHeaderC]
  cases h1 : readExact 1 data with
  | none => simp [h1, mapErr, errOutcome]
  | some v1 =>
    obtain ⟨verB, r0⟩ := v1
    simp only [h1]
    by_cases h2 : ¬ (leVal (verB.map cByteVal) = 4 ∨
        leVal (verB.map cByteVal) = 5 ∨ leVal (verB.map cByteVal) = 6 ∨
        leVal (verB.map cByteVal) = 7)
    · simp [h2, mapErr, errOutcome]
    · simp only [h2, if_false]
      cases h3 : readExact 4 r0 with
      | none => simp [h3, mapErr, errOutcome]
      | some v3 =>
        obtain ⟨saltLenB, r1⟩ := v3
        simp only [h3]
        cases h4 : readExact 1 r1 with
        | none => simp [h4, mapErr, errOutcome]
        | some v4 =>
          obtain ⟨algB, r2⟩ := v4
          simp only [h4]
          cases h5 : kdfAlgorithmFromU8 (leVal (algB.map cByteVal)) with
          | error e => simp [h5, mapErr, kdfAlgorithmFromU8_err _ _ h5]
          | ok alg =>
            simp only [h5]
            cases h6 : readExact 4 r2 with
            | none => simp [h6, mapErr, errOutcome]
            | some v6 =>
              obtain ⟨memB, r3⟩ := v6
              simp only [h6]
              cases h7 : readExact 4 r3 with
              | none => simp [h7, mapErr, errOutcome]
              | some v7 =>
                obtain ⟨timeB, r4⟩ := v7
                simp only [h7]
                cases h8 : readExact 4 r4 with
                | none => simp [h8, mapErr, errOutcome]
                | some v8 =>
                  obtain ⟨parB, r5⟩ := v8
                  simp only [h8]
                  cases h9 : readExact 4 r5 with
                  | none => simp [h9, mapErr, errOutcome]
                  | some v9 =>
                    obtain ⟨keyLenB, r6⟩ := v9
                    simp only [h9]
                    cases h10 : KdfParamsV.validate
                        ⟨alg, leVal (memB.map cByteVal),
                         leVal (timeB.map cByteVal),
                         leVal (parB.map cByteVal),
                         leVal (keyLenB.map cByteVal),
                         leVal (saltLenB.map cByteVal)⟩ with
                    | error e => simp [h10, mapErr, validate_err _ _ h10]
                    | ok u =>
                      simp only [h10]
                      cases h11 : readExact (leVal (saltLenB.map cByteVal))
                          r6 with
                      | none => simp [h11, mapErr, errOutcome]
                      | some v11 =>
                        obtain ⟨saltB, r7⟩ := v11
                        simp only [h11]
                        cases h12 : readExact 12 r7 with
                        | none => simp [h12, mapErr, errOutcome]
                        | some v12 =>
                          obtain ⟨nonceB, r8⟩ := v12
                          simp only [h12]
                          cases h13 : readExact 4 r8 with
                          | none => simp [h13, mapErr, errOutcome]
                          | some v13 =>
                            obtain ⟨csB, r9⟩ := v13
                            simp only [h13]
                            by_cases h14 : leVal (csB.map cByteVal) = 0 ∨
                                leVal (csB.map cByteVal) > 16777216
                            · simp [h14, mapErr, errOutcome]
                            · simp only [h14, if_false]
                              cases h15 : readExact 8 r9 with
                              | none => simp [h15, mapErr, errOutcome]
                              | some v15 =>
                                obtain ⟨tcB, r10⟩ := v15
                                simp only [h15]
                                by_cases h16 : leVal (tcB.map cByteVal) >
                                    10000000
                                · simp [h16, mapErr, errOutcome]
                                · simp [h16, specHeaderTail_eq]

/-- The spec-side chunk classification agrees with the code's chunk loop up
to the taxonomy classification of errors. -/
theorem specChunksOutcome_eq (key : KeyV) (hdrBytes baseNonce : List Nat)
    (chunkSize : Nat) (compAlg : Option CAlg) (origSize maxCt : Nat) :
    ∀ (count idx written : Nat) (rest : List CByte),
    specChunksOutcome key hdrBytes baseNonce chunkSize compAlg origSize
        maxCt count idx written rest =
      mapErr (decLoop key hdrBytes baseNonce chunkSize compAlg origSize
        maxCt count idx written rest) := by
  intro count
  induction count with
  | zero =>
    intro idx written rest
    rfl
  | succ n ih =>
    intro idx written rest
    rw [specChunksOutcome, decLoop]
    cases h1 : readExact 4 rest with
    | none => simp [h1, mapErr, errOutcome]
    | some v1 =>
      obtain ⟨lenB, r1⟩ := v1
      simp only [h1]
      by_cases h2 : leVal (lenB.map cByteVal) > maxCt
      · simp [h2, mapErr, errOutcome]
      · simp only [h2, if_false]
        cases h3 : readExact (leVal (lenB.map cByteVal)) r1 with
        | none => simp [h3, mapErr, errOutcome]
        | some v3 =>
          obtain ⟨ct, r2⟩ := v3
          simp only [h3]
          cases h4 : gcmDecrypt key (derive_chunk_nonce baseNonce idx)
              hdrBytes ct with
          | none => simp [h4, mapErr, errOutcome]
          | some msg =>
            simp only [h4]
            cases compAlg with
            | some alg =>
              simp only [Option.isSome_some, if_true]
              cases h5 : decompress_with_limit msg alg
                  (min chunkSize (origSize - written)) with
              | error e =>
                simp [h5, mapErr, decompress_err _ _ _ _ h5]
              | ok pt =>
                simp only [h5]
                rw [ih]
                cases hr : decLoop key hdrBytes baseNonce chunkSize
                    (some alg) origSize maxCt n (idx + 1)
                    (written + pt.length) r2 with
                | error e => simp [hr, mapErr]
                | ok v =>
                  obtain ⟨tail, w⟩ := v
                  simp [hr, mapErr]
            | none =>
              simp only [Option.isSome_none, Bool.false_eq_true, if_false]
              by_cases h5 : msg.length > chunkSize
              · simp [h5, mapErr, errOutcome]
              · simp only [h5, if_false]
                rw [ih]
                cases hr : decLoop key hdrBytes baseNonce chunkSize
                    none origSize maxCt n (idx + 1)
                    (written + (msg.map payloadByteVal).length) r2 with
                | error e => simp [hr, mapErr]
                | ok v =>
                  obtain ⟨tail, w⟩ := v
                  simp [hr, mapErr]

/-- Claim C2: the decryption error taxonomy — for every container input,
password and key-file choice, the outcome kind of the decryptor equals the
specification's classification (wrong credential exactly on an AEAD tag
failure, structural exactly on a violated validation rule or size
mismatch, I/O on truncation, and the two key-file kinds), and the
wrong-credential and structural kinds are distinct, never collapsed. -/
theorem c2_error_taxonomy :
    (∀ (input : Option (List CByte)) (pw : List Nat)
        (kf : Option (List Nat)),
      outcomeKind (decryptCore input pw kf) = decryptOutcome input pw kf) ∧
    DecOutcome.wrongCredential ≠ DecOutcome.structural := by
  refine ⟨fun input pw kf => ?_, by decide⟩
  rw [decryptCore.eq_def, decryptOutcome.eq_def]
  by_cases hpw : pw = []
  · rw [if_pos hpw, if_pos hpw]
    rfl
  · rw [if_neg hpw, if_neg hpw]
    cases input with
    | none => rfl
    | some data =>
      dsimp only
      rw [specHeaderOutcome_eq]
      cases hp : parseHeaderC data with
      | error e => simp [hp, mapErr, outcomeKind]
      | ok v =>
        obtain ⟨hdr, rest⟩ := v
        simp only [hp, mapErr]
        cases hfb : (hdr.flags &&& 1 != 0 : Bool) with
        | true =>
          cases kf with
          | none => simp [hfb, outcomeKind, errOutcome]
          | some kfc =>
            simp only [hfb, Bool.true_and, Option.isNone_some,
              Bool.false_eq_true, if_false]
            cases hhash : hash_key_file kfc with
            | error e =>
              simp [hhash, outcomeKind, Bind.bind, Except.bind]
            | ok hv =>
              simp only [hhash, Bind.bind, Except.bind]
              cases hkd : derive_key_with_material
                  (combine_password_and_keyfile pw hv) hdr.salt
                  hdr.params with
              | error e => simp [hkd, outcomeKind]
              | ok key =>
                simp only [hkd]
                rw [specChunksOutcome_eq]
                cases hl : decLoop key (buildHeader hdr.version hdr.params
                    hdr.salt hdr.baseNonce hdr.chunkSize hdr.totalChunks
                    (hdr.compAlg.map fun a => (a, hdr.level, hdr.origSize))
                    (if hdr.hasFlags then some hdr.flags else none))
                    hdr.baseNonce hdr.chunkSize hdr.compAlg hdr.origSize
                    (maxCiphertextLen hdr.chunkSize hdr.compAlg)
                    hdr.totalChunks 0 0 rest with
                | error e => simp [hl, mapErr, outcomeKind]
                | ok v2 =>
                  obtain ⟨pt, written⟩ := v2
                  simp only [hl, mapErr]
                  by_cases hsz : hdr.compAlg.isSome = true ∧
                      written ≠ hdr.origSize
                  · simp [hsz, outcomeKind, errOutcome]
                  · simp [hsz, outcomeKind]
        | false =>
          simp only [hfb, Bool.false_and, Bool.false_eq_true, if_false]
          cases hkey : derive_key_with_params pw hdr.salt hdr.params with
          | error e => simp [hkey, outcomeKind]
          | ok key =>
            simp only [hkey]
            rw [specChunksOutcome_eq]
            cases hl : decLoop key (buildHeader hdr.version hdr.params
                hdr.salt hdr.baseNonce hdr.chunkSize hdr.totalChunks
                (hdr.compAlg.map fun a => (a, hdr.level, hdr.origSize))
                (if hdr.hasFlags then some hdr.flags else none))
                hdr.baseNonce hdr.chunkSize hdr.compAlg hdr.origSize
                (maxCiphertextLen hdr.chunkSize hdr.compAlg)
                hdr.totalChunks 0 0 rest with
            | error e => simp [hl, mapErr, outcomeKind]
            | ok v2 =>
              obtain ⟨pt, written⟩ := v2
              simp only [hl, mapErr]
              by_cases hsz : hdr.compAlg.isSome = true ∧
                  written ≠ hdr.origSize
              · simp [hsz, outcomeKind, errOutcome]
              · simp [hsz, outcomeKind]
